import Mathlib

/-
Verification of the MemoryGraph class in mem0/memory/graph_memory.py.

The module is a sequence of LLM calls interleaved with parameterized Cypher
queries against an external graph store (falkordb or neo4j).  The shallow
embedding below models:

  - name normalization, exactly as the source performs it with
    python str.lower() followed by str.replace of a space by an underscore
    (ASCII-faithful);
  - the LLM, the embedding client and the BM25 scoring function as oracle
    inputs, since they are external collaborators whose responses the module
    receives as data;
  - the graph store behind the Client interface used by the single choke
    point graph_query; concrete clients implement the exact Cypher templates
    the source issues, and a trace client records the issued queries for the
    error-propagation claims;
  - fallible code by explicit state passing returning a pair of the final
    state and an Except value, so that external side effects already
    performed survive an exception, matching python semantics.
-/

namespace MemoryGraph

/-! Name normalization: python value.lower().replace(" ", "_") applied
character by character.  Char.toLower matches python str.lower on ASCII. -/

/-- Normalization applied by the source to names, types and relation labels:
lowercase the string, then replace each space by an underscore. -/
def normalizeName (s : String) : String :=
  String.mk ((s.data.map Char.toLower).map (fun c => if c = ' ' then '_' else c))

/-- A character is in normal form when it is not a space and not an ASCII
uppercase letter. -/
def normChar (c : Char) : Bool :=
  !(c == ' ') && !(c.isUpper)

/-- A string is in normal form when every character is. -/
def normStr (s : String) : Bool :=
  s.data.all normChar

theorem isUpper_toLower (c : Char) : (c.toLower).isUpper = false := by
  unfold Char.toLower
  by_cases h : c.toNat ≥ 65 ∧ c.toNat ≤ 90
  · rw [if_pos h]
    obtain ⟨h1, h2⟩ := h
    interval_cases h3 : c.toNat <;> decide
  · rw [if_neg h]
    simp only [Char.isUpper, ge_iff_le, Bool.and_eq_false_iff, decide_eq_false_iff_not]
    unfold Char.toNat at h
    rw [Decidable.not_and_iff_or_not] at h
    rcases h with h | h
    · left
      intro hc
      apply h
      have hle : (65 : UInt32).toNat ≤ c.val.toNat := by
        rw [UInt32.le_def, BitVec.le_def] at hc
        exact hc
      simpa using hle
    · right
      intro hc
      apply h
      have hle : c.val.toNat ≤ (90 : UInt32).toNat := by
        rw [UInt32.le_def, BitVec.le_def] at hc
        exact hc
      simpa using hle

theorem normStr_normalizeName (s : String) : normStr (normalizeName s) = true := by
  unfold normStr normalizeName
  rw [List.all_eq_true]
  intro c hc
  simp only [List.mem_map] at hc
  obtain ⟨c1, ⟨c0, _, rfl⟩, rfl⟩ := hc
  by_cases hsp : c0.toLower = ' '
  · rw [if_pos hsp]; decide
  · rw [if_neg hsp]
    unfold normChar
    rw [isUpper_toLower]
    simp [hsp]

/-! Semi-structured LLM responses.  The LLM returns nested json-like data;
the entity-extraction half of the internal search walks it inside a python
try block (lines 161 to 165 of the source). -/

/-- Json values as returned by the LLM client. -/
inductive Json where
  | str (s : String)
  | num (n : Int)
  | arr (xs : List Json)
  | obj (fs : List (String × Json))

/-- Dictionary lookup: python item[key] for a string key.  Indexing anything
that is not an object, or a missing key, raises in python; both are the none
case here. -/
def jget : Json → String → Option Json
  | .obj fs, k => (fs.find? (fun f => f.1 == k)).map (fun f => f.2)
  | _, _ => none

/-- Python sequence indexing with 0, as in response["tool_calls"][0].  On a
nonempty string python returns the first character as a string; on anything
else that is not a nonempty array it raises (none here). -/
def jidx0 : Json → Option Json
  | .arr (x :: _) => some x
  | .str s =>
      match s.data with
      | c :: _ => some (.str (String.mk [c]))
      | [] => none
  | _ => none

/-- Elements iterated by the python for loop over the parsed entities.  A
json array yields its elements; iterating anything else either raises at
once or yields items on which the first item lookup raises, so the net
effect of a non-array is the same as a failure before the first entity.
Both are the none case here. -/
def jelements : Json → Option (List Json)
  | .arr xs => some xs
  | _ => none

/-- Path walked by the source before the entity loop:
response["tool_calls"][0]["arguments"]["entities"]. -/
def entityItems (r : Json) : Option (List Json) := do
  let tc ← jget r "tool_calls"
  let f ← jidx0 tc
  let args ← jget f "arguments"
  let ents ← jget args "entities"
  jelements ents

/-- Keys a python dict accepts: hashable values.  Json objects and arrays
model python dicts and lists, which are unhashable, so using one as a key
raises inside the try block. -/
def hashableKey : Json → Bool
  | .str _ => true
  | .num _ => true
  | _ => false

/-- Equality of hashable keys, as python dict key comparison. -/
def keyBeq : Json → Json → Bool
  | .str a, .str b => a == b
  | .num a, .num b => a == b
  | _, _ => false

/-- Transient entity-type map: insertion-ordered association list with
python dict semantics, where inserting an existing key overwrites the value
in place and keeps its position. -/
abbrev EntityMap : Type := List (Json × Json)

/-- Python dict assignment m[k] = v. -/
def insertKV (m : EntityMap) (k v : Json) : EntityMap :=
  if (m.map Prod.fst).any (fun k0 => keyBeq k0 k) then
    m.map (fun p => if keyBeq p.1 k then (p.1, v) else p)
  else
    m ++ [(k, v)]

/-- Loop body of the try block in the internal search (source lines 161 to
165): for each item, python evaluates item["entity_type"] first, then
item["entity"], then hashes the key; the first failure aborts the loop with
the entries collected so far. -/
def collectLoop (acc : EntityMap) : List Json → EntityMap
  | [] => acc
  | item :: rest =>
      match jget item "entity_type" with
      | none => acc
      | some tv =>
          match jget item "entity" with
          | none => acc
          | some kv =>
              if hashableKey kv then collectLoop (insertKV acc kv tv) rest else acc

/-- Entity-type map recovered from an arbitrary LLM response: the whole walk
runs inside a python try whose except clause only logs, so any failure
yields the entries parsed before it. -/
def collectEntities (r : Json) : EntityMap :=
  match entityItems r with
  | none => []
  | some items => collectLoop [] items

/-- An entity item is well formed when both lookups succeed and the key is
hashable. -/
def itemOk (item : Json) : Bool :=
  (jget item "entity_type").isSome &&
    (match jget item "entity" with
     | some kv => hashableKey kv
     | none => false)

/-- Pairs contributed by the run of well-formed items before the first
failure. -/
def goodRun (r : Json) : List (Json × Json) :=
  match entityItems r with
  | none => []
  | some items =>
      (items.takeWhile itemOk).filterMap (fun item =>
        match jget item "entity", jget item "entity_type" with
        | some kv, some tv => some (kv, tv)
        | _, _ => none)

/-- Sequential optional map with the first failure aborting the whole
traversal. -/
def mapOption (f : α → Option β) : List α → Option (List β)
  | [] => some []
  | a :: as => (f a).bind fun b => (mapOption f as).map fun bs => b :: bs

/-- Strict (all-or-nothing) reading of the extraction response; none marks
that parsing the tool calls fails at some point. -/
def strictEntities (r : Json) : Option (List (Json × Json)) :=
  match entityItems r with
  | none => none
  | some items =>
      mapOption (fun item =>
        match jget item "entity_type", jget item "entity" with
        | some tv, some kv => if hashableKey kv then some (kv, tv) else none
        | _, _ => none) items

/-! Values exchanged with the graph store.  Rows coming back from a query
are themselves values: positional lists for the falkordb client, field-named
records for the neo4j driver. -/

/-- Parameter and result values of graph queries. -/
inductive Value where
  | vs (s : String)
  | vint (n : Int)
  | vflt (q : Rat)
  | vvec (v : List Rat)
  | vnodeRef (id : Nat)
  | vedgeRef (src : Nat) (typ : String) (dst : Nat)
  | vlist (xs : List Value)
  | vrec (fs : List (String × Value))

/-- Parameter dictionaries passed alongside a query. -/
abbrev Params : Type := List (String × Value)

/-- Lookup of a parameter by name. -/
def lookupV (p : Params) (k : String) : Option Value :=
  (p.find? (fun f => f.1 == k)).map (fun f => f.2)

/-- Lookup of a string-valued entry, as filters["user_id"]. -/
def lookupStr (p : Params) (k : String) : Option String :=
  match lookupV p k with
  | some (.vs s) => some s
  | _ => none

/-- Conversion list(d.values()) applied by graph_query to each neo4j record
(source line 376); calling it on something that is not a record raises. -/
def dictValues : Value → Except String Value
  | .vrec fs => .ok (.vlist (fs.map Prod.snd))
  | _ => .error "AttributeError: values"

/-- Sequential effectful map, as a python list comprehension: the first
exception aborts the whole comprehension. -/
def mapExcept (f : α → Except String β) : List α → Except String (List β)
  | [] => .ok []
  | a :: as =>
      match f a with
      | .error e => .error e
      | .ok b => Except.map (fun bs => b :: bs) (mapExcept f as)

/-- Python positional indexing item[i] on a row. -/
def vIdx : Value → Nat → Except String Value
  | .vlist xs, i =>
      match xs.get? i with
      | some v => .ok v
      | none => .error "IndexError"
  | _, _ => .error "TypeError: not subscriptable"

/-! Graph store contents.  Node identity is an internal id; the source
creates nodes either with exactly one label (the addition path interpolates
the entity type into the MERGE pattern) or with no label at all (the update
path MERGE has no label), so a single optional label is faithful. -/

/-- Stored node. -/
structure Node where
  id : Nat
  label : Option String
  name : String
  userId : String
  embedding : Option (List Rat)
  created : Option Nat
deriving DecidableEq

/-- Stored directed edge between node ids. -/
structure Edge where
  src : Nat
  typ : String
  dst : Nat
  created : Option Nat
deriving DecidableEq

/-- One logical graph. -/
structure GraphState where
  nodes : List Node
  edges : List Edge
  nextId : Nat
  time : Nat
deriving DecidableEq

/-- Empty graph. -/
def emptyGraph : GraphState := ⟨[], [], 0, 0⟩

/-! Query templates issued by the source.  Each constructor stands for one
Cypher text; label arguments correspond to the pieces the source
interpolates into the query string itself rather than passing as
parameters. -/

/-- Cypher templates of graph_memory.py, one constructor per query text. -/
inductive CypherQuery where
  | addTriple (srcType dstType relType : String)
  | mergeNodePair
  | deleteEdgesBetween
  | createEdgeQ (relType : String)
  | deleteAllQ
  | getAllQ
  | simFalkor
  | simNeo
deriving DecidableEq

/-- Similarity oracle: the FALKORDB_QUERY and NEO4J_QUERY templates live in
mem0/graphs/utils.py, which is not under src.  Modelled from the spec: a
provider-specific similarity query returning candidate rows for an
embedding, a threshold, a user id and a limit; its vector arithmetic is an
abstract function of the graph and the parameters, and it reads the graph
without mutating it. -/
abbrev SimOracle : Type := GraphState → Params → List (List (String × Value))

/-- Missing bound parameter in a query text: both supported providers
reject such a query. -/
def missingParam (k : String) : String := "Missing query parameter: " ++ k

/-- Nodes of g matching a MERGE or MATCH pattern with a label, a name and a
user id, as in the addition-path query. -/
def matchTyped (g : GraphState) (lab nm uid : String) : List Node :=
  g.nodes.filter (fun nd => nd.label == some lab && nd.name == nm && nd.userId == uid)

/-- Nodes of g matching a label-free pattern with a name and a user id, as
in the update-path queries. -/
def matchPlain (g : GraphState) (nm uid : String) : List Node :=
  g.nodes.filter (fun nd => nd.name == nm && nd.userId == uid)

/-- MERGE of a labelled node pattern with ON CREATE SET created and
embedding, ON MATCH SET embedding: if no node matches, create one; else
overwrite the embedding of every match.  Returns the new graph and the ids
the pattern binds. -/
def mergeTyped (g : GraphState) (lab nm uid : String) (emb : List Rat) :
    GraphState × List Nat :=
  let ms := matchTyped g lab nm uid
  if ms.isEmpty then
    ({ g with
        nodes := g.nodes ++
          [⟨g.nextId, some lab, nm, uid, some emb, some g.time⟩],
        nextId := g.nextId + 1 },
     [g.nextId])
  else
    ({ g with
        nodes := g.nodes.map (fun nd =>
          if nd.label == some lab && nd.name == nm && nd.userId == uid then
            { nd with embedding := some emb }
          else nd) },
     ms.map Node.id)

/-- MERGE of a label-free node pattern with no ON CREATE or ON MATCH
clause: if no node matches, create a bare node carrying only the pattern
properties. -/
def mergePlain (g : GraphState) (nm uid : String) : GraphState :=
  if (matchPlain g nm uid).isEmpty then
    { g with
        nodes := g.nodes ++ [⟨g.nextId, none, nm, uid, none, none⟩],
        nextId := g.nextId + 1 }
  else g

/-- MERGE of the relation in the addition-path query, executed for every
pair of bound endpoints: create the typed edge with a creation timestamp
when it does not exist yet. -/
def mergeEdges (g : GraphState) (pairs : List (Nat × Nat)) (rel : String) :
    GraphState :=
  pairs.foldl
    (fun g' pr =>
      if g'.edges.any (fun e => e.src == pr.1 && e.typ == rel && e.dst == pr.2) then g'
      else { g' with edges := g'.edges ++ [⟨pr.1, rel, pr.2, some g'.time⟩] })
    g

/-- Combined effect of the addition-path MERGE query: merge the typed
source node, then the typed destination node, then the relation for every
pair of bound endpoints. -/
def addTripleStep (g : GraphState) (sTy dTy rel sn dn u : String)
    (se de : List Rat) : GraphState × List (Nat × Nat) :=
  let r1 := mergeTyped g sTy sn u se
  let r2 := mergeTyped r1.1 dTy dn u de
  let pairs := r1.2.flatMap (fun a => r2.2.map (fun b => (a, b)))
  let g3 := mergeEdges r2.1 pairs rel
  ({ g3 with time := g3.time + 1 }, pairs)

/-- Combined effect of the update-path double MERGE: ensure both endpoint
nodes exist by name and user id. -/
def mergePairStep (g : GraphState) (s t u : String) : GraphState :=
  let g2 := mergePlain (mergePlain g s u) t u
  { g2 with time := g2.time + 1 }

/-- Deletion of every edge from a node matching the source pattern to a
node matching the target pattern, any relation type, as the update-path
DELETE query. -/
def deleteBetween (g : GraphState) (s t u : String) : GraphState :=
  { g with
      edges := g.edges.filter (fun e =>
        !(((matchPlain g s u).map Node.id).contains e.src &&
          ((matchPlain g t u).map Node.id).contains e.dst)),
      time := g.time + 1 }

/-- Unconditional CREATE of the new relation for every pair of matched
endpoints, with no properties set, as the update-path CREATE query. -/
def createBetween (g : GraphState) (s t u rel : String) :
    GraphState × List (Nat × Nat) :=
  let pairs := ((matchPlain g s u).map Node.id).flatMap
    (fun a => ((matchPlain g t u).map Node.id).map (fun b => (a, b)))
  ({ g with
      edges := g.edges ++ pairs.map (fun pr => ⟨pr.1, rel, pr.2, none⟩),
      time := g.time + 1 },
   pairs)

/-- DETACH DELETE of every node owned by the user, with its incident
edges. -/
def deleteAllUser (g : GraphState) (u : String) : GraphState :=
  let victims := (g.nodes.filter (fun nd => nd.userId == u)).map Node.id
  { g with
      nodes := g.nodes.filter (fun nd => !(nd.userId == u)),
      edges := g.edges.filter (fun e =>
        !(victims.contains e.src || victims.contains e.dst)),
      time := g.time + 1 }

/-- Rows of the bulk-retrieval MATCH: one row of source name, relation type
and target name for each edge between two nodes owned by the user. -/
def getAllRows (g : GraphState) (u : String) : List (List (String × Value)) :=
  g.edges.filterMap (fun e =>
    match g.nodes.find? (fun nd => nd.id == e.src),
          g.nodes.find? (fun nd => nd.id == e.dst) with
    | some n1, some n2 =>
        if n1.userId == u && n2.userId == u then
          some [("source", Value.vs n1.name),
                ("relationship", Value.vs e.typ),
                ("target", Value.vs n2.name)]
        else none
    | _, _ => none)

/-- Evaluation of one Cypher template on one graph, returning field-named
rows.  Every parameter a template references must be bound in params, as
both supported providers require; the time counter advances once per
executed query so that timestamp() is fresh. -/
def evalCypher (sim : SimOracle) (g : GraphState) :
    CypherQuery → Params → Except String (GraphState × List (List (String × Value)))
  | .addTriple sTy dTy rel, p =>
      match lookupV p "source_name", lookupV p "dest_name",
            lookupV p "source_embedding", lookupV p "dest_embedding",
            lookupV p "user_id" with
      | some (.vs sn), some (.vs dn), some (.vvec se), some (.vvec de),
        some (.vs u) =>
          let r := addTripleStep g sTy dTy rel sn dn u se de
          .ok (r.1,
               r.2.map (fun pr =>
                 [("n", .vnodeRef pr.1), ("rel", .vedgeRef pr.1 rel pr.2),
                  ("m", .vnodeRef pr.2)]))
      | _, _, _, _, _ => .error (missingParam "addition")
  | .mergeNodePair, p =>
      match lookupV p "source", lookupV p "target", lookupV p "user_id" with
      | some (.vs s), some (.vs t), some (.vs u) =>
          .ok (mergePairStep g s t u, [])
      | _, _, _ => .error (missingParam "update")
  | .deleteEdgesBetween, p =>
      match lookupV p "source", lookupV p "target", lookupV p "user_id" with
      | some (.vs s), some (.vs t), some (.vs u) =>
          .ok (deleteBetween g s t u, [])
      | _, _, _ => .error (missingParam "update")
  | .createEdgeQ rel, p =>
      match lookupV p "source", lookupV p "target", lookupV p "user_id" with
      | some (.vs s), some (.vs t), some (.vs u) =>
          let r := createBetween g s t u rel
          .ok (r.1,
               r.2.map (fun pr =>
                 [("n1", .vnodeRef pr.1), ("r", .vedgeRef pr.1 rel pr.2),
                  ("n2", .vnodeRef pr.2)]))
      | _, _, _ => .error (missingParam "update")
  | .deleteAllQ, p =>
      match lookupV p "user_id" with
      | some (.vs u) => .ok (deleteAllUser g u, [])
      | _ => .error (missingParam "user_id")
  | .getAllQ, p =>
      match lookupV p "user_id" with
      | some (.vs u) =>
          match lookupV p "limit" with
          | some (.vint k) =>
              .ok ({ g with time := g.time + 1 }, (getAllRows g u).take k.toNat)
          | _ => .error (missingParam "limit")
      | _ => .error (missingParam "user_id")
  | .simFalkor, p => .ok ({ g with time := g.time + 1 }, sim g p)
  | .simNeo, p => .ok ({ g with time := g.time + 1 }, sim g p)

/-! The external graph client held in self.graph.  The module sees it only
through two operations: the falkordb-only graph switch
self.graph._driver.select_graph(user_id) and self.graph.query(query,
params).  Rows already reach the module as plain values: positional lists
from the falkordb client, field-named records from the neo4j driver. -/

/-- External graph client interface. -/
structure Client (σ : Type) where
  select : σ → String → σ
  runQuery : CypherQuery → Params → σ → σ × Except String (List Value)

/-- Multi-graph falkordb server state: one logical graph per name (lazily
empty until first written), plus the currently selected graph. -/
structure FalkorState where
  graphs : String → GraphState
  current : String

/-- Logical graph of a given name. -/
def graphOf (st : FalkorState) (nm : String) : GraphState :=
  st.graphs nm

/-- Store back the graph of a given name. -/
def putGraph (st : FalkorState) (nm : String) (g : GraphState) : FalkorState :=
  { st with graphs := Function.update st.graphs nm g }

/-- Falkordb server with no data. -/
def falkorEmpty : FalkorState := ⟨fun _ => emptyGraph, ""⟩

/-- Falkordb client: select_graph switches the current logical graph, and
query runs on the current graph, returning positional rows (the falkordb
result_set carries values without field names). -/
def falkorClient (sim : SimOracle) : Client FalkorState where
  select st nm := { st with current := nm }
  runQuery q p st :=
    match evalCypher sim (graphOf st st.current) q p with
    | .error e => (st, .error e)
    | .ok (g', rows) =>
        (putGraph st st.current g',
         .ok (rows.map (fun r => .vlist (r.map Prod.snd))))

/-- Neo4j client: a single graph; the driver returns field-named records. -/
def neoClient (sim : SimOracle) : Client GraphState where
  select st _ := st
  runQuery q p st :=
    match evalCypher sim st q p with
    | .error e => (st, .error e)
    | .ok (g', rows) => (g', .ok (rows.map Value.vrec))

/-- Trace of queries issued to the client. -/
abbrev Trace : Type := List (CypherQuery × Params)

/-- Trace client: an arbitrary response function stands for the external
store, and the state records every query issued, so that theorems can state
which side effects have reached the store when an exception propagates. -/
def traceClient (resp : Trace → CypherQuery → Params → Except String (List Value)) :
    Client Trace where
  select st _ := st
  runQuery q p st := (st ++ [(q, p)], resp st q p)

/-- Graph store providers. -/
inductive Provider where
  | falkordb
  | neo4j
  | other (name : String)
deriving DecidableEq

/-- Configuration slice the class reads at query time. -/
structure Config where
  provider : Provider
deriving DecidableEq

/-- Error text raised by the provider dispatch in the internal search
(source line 179). -/
def unsupportedMsg : String := "Unsupported graph database provider for querying"

/-- Error raised by a python dict lookup of a missing key. -/
def keyError (k : String) : String := "KeyError: " ++ k

/-- Message of the exception raised when the update path creates no edge
(source line 355). -/
def updateFailMsg (s t : String) : String :=
  "Failed to update or create relationship between " ++ s ++ " and " ++ t

/-- Choke point graph_query (source lines 357 to 379).  For falkordb it
first selects the per-user logical graph named params["user_id"]; for neo4j
it converts every returned record to the plain list of its field values.
For any other provider no client exists: modelled from the spec, the
GraphFactory in mem0/utils/factory.py (not under src) rejects unsupported
providers when the class is constructed. -/
def graph_query (cfg : Config) (cl : Client σ) (q : CypherQuery) (p : Params)
    (st : σ) : σ × Except String (List Value) :=
  match cfg.provider with
  | .falkordb =>
      match lookupV p "user_id" with
      | some (.vs u) => (cl.select st u |> cl.runQuery q p)
      | _ => (st, .error (keyError "user_id"))
  | .neo4j =>
      match cl.runQuery q p st with
      | (st', .ok rows) =>
          match mapExcept dictValues rows with
          | .ok rows' => (st', .ok rows')
          | .error e => (st', .error e)
      | (st', .error e) => (st', .error e)
  | .other _ => (st, .error "No graph client for unsupported provider")

/-- Update path _update_relationship (source lines 306 to 355): normalize
only the relationship label, merge both endpoint nodes by name and user id,
delete every existing edge between the pair, create the new edge, and raise
when the creation query returns no rows. -/
def _update_relationship (cfg : Config) (cl : Client σ)
    (source target relationship : String) (filters : Params) (st : σ) :
    σ × Except String Unit :=
  let rel := normalizeName relationship
  match lookupStr filters "user_id" with
  | none => (st, .error (keyError "user_id"))
  | some u =>
      let p : Params := [("source", .vs source), ("target", .vs target),
                         ("user_id", .vs u)]
      match graph_query cfg cl .mergeNodePair p st with
      | (st1, .error e) => (st1, .error e)
      | (st1, .ok _) =>
          match graph_query cfg cl .deleteEdgesBetween p st1 with
          | (st2, .error e) => (st2, .error e)
          | (st2, .ok _) =>
              match graph_query cfg cl (.createEdgeQ rel) p st2 with
              | (st3, .error e) => (st3, .error e)
              | (st3, .ok rows) =>
                  if rows.isEmpty then (st3, .error (updateFailMsg source target))
                  else (st3, .ok ())

/-- Arguments of one add_graph_memory tool call. -/
structure AddArgs where
  source : String
  sourceType : String
  relationship : String
  destination : String
  destinationType : String
deriving DecidableEq

/-- One reconciliation decision returned by the LLM, tagged by tool name as
the source dispatches on item["name"]; a tool call with any other name
falls through the if chain silently. -/
inductive Decision where
  | addMem (args : AddArgs)
  | updateMem (source destination relationship : String)
  | noopCall
  | otherTool (name : String)
deriving DecidableEq

/-- Triple of normalized names returned by add. -/
structure RelTriple where
  source : String
  relationship : String
  target : String
deriving DecidableEq

/-- Row triple returned by search and get_all, carrying raw row values. -/
structure ValTriple where
  source : Value
  relationship : Value
  target : Value

/-- First loop of add (source lines 89 to 100): buffer add_graph_memory
arguments in order, apply update_graph_memory decisions immediately through
the update path, and drop noop or unknown tool calls. -/
def decisionLoop (cfg : Config) (cl : Client σ) (filters : Params) :
    List Decision → σ → σ × Except String (List AddArgs)
  | [], st => (st, .ok [])
  | d :: rest, st =>
      match d with
      | .addMem a =>
          match decisionLoop cfg cl filters rest st with
          | (st', .ok buf) => (st', .ok (a :: buf))
          | (st', .error e) => (st', .error e)
      | .updateMem s t r =>
          match _update_relationship cfg cl s t r filters st with
          | (st', .error e) => (st', .error e)
          | (st', .ok _) => decisionLoop cfg cl filters rest st'
      | .noopCall => decisionLoop cfg cl filters rest st
      | .otherTool _ => decisionLoop cfg cl filters rest st

/-- Second loop of add (source lines 104 to 138): normalize all five names,
record the returned triple, embed both endpoint names, and issue the
combined MERGE query, whose result the source discards. -/
def addLoop (cfg : Config) (cl : Client σ) (embed : Json → List Rat)
    (filters : Params) : List AddArgs → σ → σ × Except String (List RelTriple)
  | [], st => (st, .ok [])
  | a :: rest, st =>
      let source := normalizeName a.source
      let sourceType := normalizeName a.sourceType
      let relation := normalizeName a.relationship
      let destination := normalizeName a.destination
      let destinationType := normalizeName a.destinationType
      let sEmb := embed (.str source)
      let dEmb := embed (.str destination)
      match lookupStr filters "user_id" with
      | none => (st, .error (keyError "user_id"))
      | some u =>
          let p : Params :=
            [("source_name", .vs source), ("dest_name", .vs destination),
             ("source_embedding", .vvec sEmb), ("dest_embedding", .vvec dEmb),
             ("user_id", .vs u)]
          match graph_query cfg cl (.addTriple sourceType destinationType relation) p st with
          | (st', .error e) => (st', .error e)
          | (st', .ok _) =>
              match addLoop cfg cl embed filters rest st' with
              | (st'', .ok ts) =>
                  (st'', .ok (⟨source, relation, destination⟩ :: ts))
              | (st'', .error e) => (st'', .error e)

/-- Retrieval half of the internal search (source lines 169 to 190): for
each extracted entity, embed it, pick the provider-specific similarity
template or raise for an unsupported provider, and concatenate the rows of
all queries without deduplication. -/
def searchLoop (cfg : Config) (cl : Client σ) (embed : Json → List Rat)
    (filters : Params) (limit : Int) : List Json → σ → σ × Except String (List Value)
  | [], st => (st, .ok [])
  | node :: rest, st =>
      let nEmb := embed node
      match (match cfg.provider with
             | .falkordb => Except.ok CypherQuery.simFalkor
             | .neo4j => Except.ok CypherQuery.simNeo
             | .other _ => Except.error unsupportedMsg) with
      | .error e => (st, .error e)
      | .ok q =>
          match lookupStr filters "user_id" with
          | none => (st, .error (keyError "user_id"))
          | some u =>
              let p : Params :=
                [("n_embedding", .vvec nEmb), ("threshold", .vflt ((7 : Rat) / 10)),
                 ("user_id", .vs u), ("limit", .vint limit)]
              match graph_query cfg cl q p st with
              | (st', .error e) => (st', .error e)
              | (st', .ok ans) =>
                  match searchLoop cfg cl embed filters limit rest st' with
                  | (st'', .ok rs) => (st'', .ok (ans ++ rs))
                  | (st'', .error e) => (st'', .error e)

/-- Internal search _search (source lines 144 to 190): the entity
extraction LLM response arrives as data, its parse degrades to the partial
entity-type map, and retrieval runs over the map keys.  The prompt-building
and the LLM invocation themselves are external I/O with no effect on the
store. -/
def _search (cfg : Config) (cl : Client σ) (embed : Json → List Rat)
    (entityResp : Json) (filters : Params) (limit : Int) (st : σ) :
    σ × Except String (List Value × EntityMap) :=
  let etm := collectEntities entityResp
  match searchLoop cfg cl embed filters limit (etm.map Prod.fst) st with
  | (st', .ok rows) => (st', .ok (rows, etm))
  | (st', .error e) => (st', .error e)

/-- Relation extraction _extract_relations (source lines 267 to 304): the
response is external data; with no tool calls it degrades to an empty list.
Its output only feeds the reconciliation prompt. -/
def _extract_relations (relResp : Json) : List Json :=
  match jget relResp "tool_calls" with
  | some (.arr (tc :: _)) =>
      match jget tc "arguments" with
      | some args =>
          match jget args "entities" with
          | some (.arr xs) => xs
          | _ => []
      | _ => []
  | _ => []

/-- Reconciliation engine add (source lines 55 to 142): run the internal
search, extract relations for the prompt, receive the reconciliation
decisions from the LLM as data, process them, and run the addition loop,
returning only the newly added triples. -/
def add (cfg : Config) (cl : Client σ) (embed : Json → List Rat)
    (entityResp relResp : Json) (decisions : List Decision)
    (filters : Params) (st : σ) : σ × Except String (List RelTriple) :=
  match _search cfg cl embed entityResp filters 100 st with
  | (st1, .error e) => (st1, .error e)
  | (st1, .ok _) =>
      let _ := _extract_relations relResp
      match decisionLoop cfg cl filters decisions st1 with
      | (st2, .error e) => (st2, .error e)
      | (st2, .ok toBeAdded) => addLoop cfg cl embed filters toBeAdded st2

/-- Descending insertion by score. -/
def insertByScore (score : List Value → Rat) (x : List Value) :
    List (List Value) → List (List Value)
  | [] => [x]
  | y :: ys =>
      if score y < score x then x :: y :: ys else y :: insertByScore score x ys

/-- Descending sort by score. -/
def sortByScore (score : List Value → Rat) : List (List Value) → List (List Value)
  | [] => []
  | x :: xs => insertByScore score x (sortByScore score xs)

/-- Reranker get_top_n of the external rank_bm25 package.  Modelled from
the spec: it scores every candidate document against the query with a
bag-of-words function and returns the n best-scoring documents; the scoring
function is an abstract oracle. -/
def getTopN (score : List Value → Rat) (docs : List (List Value)) (n : Nat) :
    List (List Value) :=
  (sortByScore score docs).take n

/-- Public search (source lines 192 to 224): run the internal search,
return [] at once when it yields no candidates, otherwise rerank the
three-field views of the candidate rows against the query split on spaces
and return at most five triples.  The score oracle receives the tokenized
query and one candidate document, as BM25Okapi scoring does. -/
def search (cfg : Config) (cl : Client σ) (embed : Json → List Rat)
    (score : List String → List Value → Rat) (entityResp : Json)
    (query : String) (filters : Params) (limit : Int) (st : σ) :
    σ × Except String (List ValTriple) :=
  match _search cfg cl embed entityResp filters limit st with
  | (st1, .error e) => (st1, .error e)
  | (st1, .ok (searchOutput, _)) =>
      if searchOutput.isEmpty then (st1, .ok [])
      else
        match mapExcept (fun item => do
          let a ← vIdx item 0
          let b ← vIdx item 2
          let c ← vIdx item 4
          Except.ok [a, b, c]) searchOutput with
        | .error e => (st1, .error e)
        | .ok seqs =>
            let tokenizedQuery := query.splitOn " "
            match mapExcept (fun item =>
              match item with
              | [a, b, c] => Except.ok (⟨a, b, c⟩ : ValTriple)
              | _ => Except.error "IndexError")
              (getTopN (score tokenizedQuery) seqs 5) with
            | .error e => (st1, .error e)
            | .ok ts => (st1, .ok ts)

/-- Bulk deletion delete_all (source lines 226 to 232). -/
def delete_all (cfg : Config) (cl : Client σ) (filters : Params) (st : σ) :
    σ × Except String Unit :=
  match lookupStr filters "user_id" with
  | none => (st, .error (keyError "user_id"))
  | some u =>
      match graph_query cfg cl .deleteAllQ [("user_id", .vs u)] st with
      | (st', .ok _) => (st', .ok ())
      | (st', .error e) => (st', .error e)

/-- Bulk retrieval get_all (source lines 234 to 265).  The query text ends
in LIMIT with a limit parameter, but the source passes only the user id in
params, so the limit argument of get_all never reaches the store. -/
def get_all (cfg : Config) (cl : Client σ) (filters : Params) (limit : Int)
    (st : σ) : σ × Except String (List ValTriple) :=
  match lookupStr filters "user_id" with
  | none => (st, .error (keyError "user_id"))
  | some u =>
      match graph_query cfg cl .getAllQ [("user_id", .vs u)] st with
      | (st', .error e) => (st', .error e)
      | (st', .ok results) =>
          match mapExcept (fun r => do
            let a ← vIdx r 0
            let b ← vIdx r 1
            let c ← vIdx r 2
            Except.ok (⟨a, b, c⟩ : ValTriple)) results with
          | .ok ts => (st', .ok ts)
          | .error e => (st', .error e)

/-! Shared shorthand and helper lemmas. -/

/-- Configuration with the falkordb provider. -/
def cfgF : Config := ⟨.falkordb⟩

/-- Configuration with the neo4j provider. -/
def cfgN : Config := ⟨.neo4j⟩

/-- Similarity oracle returning no candidates. -/
def simZero : SimOracle := fun _ _ => []

/-- Embedding oracle returning the empty vector. -/
def embedZero : Json → List Rat := fun _ => []

/-- Trace responses that always succeed with no rows. -/
def respEmpty : Trace → CypherQuery → Params → Except String (List Value) :=
  fun _ _ _ => .ok []

theorem graphOf_putGraph (st : FalkorState) (nm : String) (g : GraphState) :
    graphOf (putGraph st nm g) nm = g := by
  unfold graphOf putGraph
  simp

theorem graphOf_putGraph_ne (st : FalkorState) (nm v : String) (g : GraphState)
    (h : v ≠ nm) : graphOf (putGraph st nm g) v = graphOf st v := by
  unfold graphOf putGraph
  simp [Function.update_noteq h]

/-- Both concrete clients reject the bulk-retrieval query because the
source never binds its limit parameter. -/
theorem get_all_query_missing_limit (sim : SimOracle) (u : String)
    (fs : FalkorState) (g : GraphState) (filters : Params) (limit : Int)
    (h : lookupStr filters "user_id" = some u) :
    get_all cfgF (falkorClient sim) filters limit fs =
      ({ fs with current := u }, .error (missingParam "limit")) ∧
    get_all cfgN (neoClient sim) filters limit g =
      (g, .error (missingParam "limit")) := by
  constructor
  · unfold get_all
    rw [h]
    rfl
  · unfold get_all
    rw [h]
    rfl

/-- Claim C1 theorem.  The claim that get_all returns at most limit triples
fails on the code: the query text ends in LIMIT with a limit parameter, but
params carries only the user id, so both supported providers reject the
query with a missing-parameter error and get_all raises for every state and
every limit, instead of returning up to limit user-scoped triples. -/
theorem c1_get_all_raises_missing_limit (sim : SimOracle) (u : String)
    (fs : FalkorState) (g : GraphState) (filters : Params) (limit : Int)
    (h : lookupStr filters "user_id" = some u) :
    get_all cfgF (falkorClient sim) filters limit fs =
      ({ fs with current := u }, .error (missingParam "limit")) ∧
    get_all cfgN (neoClient sim) filters limit g =
      (g, .error (missingParam "limit")) :=
  get_all_query_missing_limit sim u fs g filters limit h

/-- Claim C1 witness: a concrete user, an empty store and limit zero. -/
theorem c1_get_all_raises_missing_limit_witness :
    get_all cfgF (falkorClient simZero) [("user_id", .vs "u1")] 0 falkorEmpty =
      ({ falkorEmpty with current := "u1" }, .error (missingParam "limit")) ∧
    get_all cfgN (neoClient simZero) [("user_id", .vs "u1")] 0 emptyGraph =
      (emptyGraph, .error (missingParam "limit")) :=
  c1_get_all_raises_missing_limit simZero "u1" falkorEmpty emptyGraph
    [("user_id", .vs "u1")] 0 rfl

theorem mapExcept_dictValues (rows : List (List (String × Value))) :
    mapExcept dictValues (rows.map Value.vrec) =
      .ok (rows.map (fun r => Value.vlist (r.map Prod.snd))) := by
  induction rows with
  | nil => rfl
  | cons r rest ih => simp [mapExcept, dictValues, ih, Except.map]

theorem graph_query_neo (sim : SimOracle) (q : CypherQuery) (p : Params)
    (g : GraphState) :
    graph_query cfgN (neoClient sim) q p g =
      match evalCypher sim g q p with
      | .ok (g2, rows) =>
          (g2, .ok (rows.map (fun r => Value.vlist (r.map Prod.snd))))
      | .error e => (g, .error e) := by
  unfold graph_query cfgN neoClient
  cases hev : evalCypher sim g q p with
  | error e => simp [hev]
  | ok pr =>
      cases pr with
      | mk g2 rows => simp [hev, mapExcept_dictValues]

theorem graph_query_falkor (sim : SimOracle) (q : CypherQuery) (p : Params)
    (u : String) (st : FalkorState) (h : lookupV p "user_id" = some (.vs u)) :
    graph_query cfgF (falkorClient sim) q p st =
      match evalCypher sim (graphOf st u) q p with
      | .ok (g2, rows) =>
          (putGraph { st with current := u } u g2,
           .ok (rows.map (fun r => Value.vlist (r.map Prod.snd))))
      | .error e => ({ st with current := u }, .error e) := by
  unfold graph_query cfgF falkorClient
  rw [h]
  have hgr : graphOf { graphs := st.graphs, current := u } u = graphOf st u := rfl
  simp only
  rw [hgr]
  cases hev : evalCypher sim (graphOf st u) q p with
  | error e => rfl
  | ok pr =>
      cases pr with
      | mk g2 rows => rfl

/-- Claim C5 theorem.  The claim fails on the code: delete_all does detach
and delete every node owned by the user (first two conjuncts per provider),
but the subsequent get_all does not return the empty list; it raises the
missing-limit error of claim C1, because the source never binds the limit
parameter of the bulk-retrieval query. -/
theorem c5_delete_all_wipes_but_get_all_raises (filters : Params) (u : String)
    (h : lookupStr filters "user_id" = some u) :
    (∀ (sim : SimOracle) (fs : FalkorState) (st1 : FalkorState)
        (r1 : Except String Unit),
      delete_all cfgF (falkorClient sim) filters fs = (st1, r1) →
        r1 = .ok () ∧
        (∀ nd ∈ (graphOf st1 u).nodes, nd.userId ≠ u) ∧
        get_all cfgF (falkorClient sim) filters 100 st1 =
          ({ st1 with current := u }, .error (missingParam "limit"))) ∧
    (∀ (sim : SimOracle) (g g1 : GraphState) (r1 : Except String Unit),
      delete_all cfgN (neoClient sim) filters g = (g1, r1) →
        r1 = .ok () ∧
        (∀ nd ∈ g1.nodes, nd.userId ≠ u) ∧
        get_all cfgN (neoClient sim) filters 100 g1 =
          (g1, .error (missingParam "limit"))) := by
  constructor
  · intro sim fs st1 r1 hd
    have hval : delete_all cfgF (falkorClient sim) filters fs =
        (putGraph { fs with current := u } u (deleteAllUser (graphOf fs u) u),
         .ok ()) := by
      unfold delete_all
      rw [h]
      rfl
    rw [hval] at hd
    obtain ⟨hst, hr⟩ := Prod.mk.injEq .. ▸ hd
    refine ⟨hr.symm, ?_, ?_⟩
    · intro nd hnd
      rw [← hst, graphOf_putGraph] at hnd
      unfold deleteAllUser at hnd
      simp only [List.mem_filter, Bool.not_eq_true'] at hnd
      intro he
      rw [he] at hnd
      simp at hnd
    · exact (get_all_query_missing_limit sim u st1 emptyGraph filters 100 h).1
  · intro sim g g1 r1 hd
    have hval : delete_all cfgN (neoClient sim) filters g =
        (deleteAllUser g u, .ok ()) := by
      unfold delete_all
      rw [h]
      rfl
    rw [hval] at hd
    obtain ⟨hst, hr⟩ := Prod.mk.injEq .. ▸ hd
    refine ⟨hr.symm, ?_, ?_⟩
    · intro nd hnd
      rw [← hst] at hnd
      unfold deleteAllUser at hnd
      simp only [List.mem_filter, Bool.not_eq_true'] at hnd
      intro he
      rw [he] at hnd
      simp at hnd
    · exact (get_all_query_missing_limit sim u falkorEmpty g1 filters 100 h).2

/-- Claim C5 witness: one user-owned node with a self edge; deletion
succeeds and empties the user's graph, then get_all raises. -/
theorem c5_delete_all_wipes_but_get_all_raises_witness :
    (∀ nd ∈ (graphOf
        (delete_all cfgF (falkorClient simZero) [("user_id", .vs "u1")]
          (putGraph falkorEmpty "u1"
            ⟨[⟨0, none, "alice", "u1", none, none⟩], [⟨0, "knows", 0, none⟩], 1, 0⟩)).1
        "u1").nodes, nd.userId ≠ "u1") ∧
    get_all cfgF (falkorClient simZero) [("user_id", .vs "u1")] 100
        (delete_all cfgF (falkorClient simZero) [("user_id", .vs "u1")]
          (putGraph falkorEmpty "u1"
            ⟨[⟨0, none, "alice", "u1", none, none⟩], [⟨0, "knows", 0, none⟩], 1, 0⟩)).1 =
      ((delete_all cfgF (falkorClient simZero) [("user_id", .vs "u1")]
          (putGraph falkorEmpty "u1"
            ⟨[⟨0, none, "alice", "u1", none, none⟩], [⟨0, "knows", 0, none⟩], 1, 0⟩)).1,
       .error (missingParam "limit")) := by
  have hc := (c5_delete_all_wipes_but_get_all_raises [("user_id", .vs "u1")] "u1" rfl).1
    simZero
    (putGraph falkorEmpty "u1"
      ⟨[⟨0, none, "alice", "u1", none, none⟩], [⟨0, "knows", 0, none⟩], 1, 0⟩)
    (delete_all cfgF (falkorClient simZero) [("user_id", .vs "u1")]
      (putGraph falkorEmpty "u1"
        ⟨[⟨0, none, "alice", "u1", none, none⟩], [⟨0, "knows", 0, none⟩], 1, 0⟩)).1
    (delete_all cfgF (falkorClient simZero) [("user_id", .vs "u1")]
      (putGraph falkorEmpty "u1"
        ⟨[⟨0, none, "alice", "u1", none, none⟩], [⟨0, "knows", 0, none⟩], 1, 0⟩)).2
    rfl
  refine ⟨hc.2.1, ?_⟩
  have := hc.2.2
  simpa using this

/-- Claim C9 theorem.  Confirmed: with the falkordb provider, graph_query
first selects the per-user logical graph named params of user_id, so the
query runs against exactly that graph and every other logical graph is left
untouched; with the neo4j provider, every record returned by the driver is
converted to the plain ordered list of its field values, names stripped and
order preserved, so callers can index results positionally. -/
theorem c9_graph_query_provider_contract :
    (∀ (sim : SimOracle) (st : FalkorState) (q : CypherQuery) (p : Params)
       (u : String) (st' : FalkorState) (out : Except String (List Value)),
      lookupV p "user_id" = some (.vs u) →
      graph_query cfgF (falkorClient sim) q p st = (st', out) →
        st'.current = u ∧
        (∀ v, v ≠ u → graphOf st' v = graphOf st v) ∧
        (match evalCypher sim (graphOf st u) q p with
         | .ok (g2, rows) =>
             graphOf st' u = g2 ∧
             out = .ok (rows.map (fun r => Value.vlist (r.map Prod.snd)))
         | .error e => graphOf st' u = graphOf st u ∧ out = .error e)) ∧
    (∀ (sim : SimOracle) (g : GraphState) (q : CypherQuery) (p : Params)
       (g' : GraphState) (out : Except String (List Value)),
      graph_query cfgN (neoClient sim) q p g = (g', out) →
        match evalCypher sim g q p with
        | .ok (g2, rows) =>
            g' = g2 ∧
            out = .ok (rows.map (fun r => Value.vlist (r.map Prod.snd))) ∧
            ∀ r ∈ rows, (Value.vlist (r.map Prod.snd)) = .vlist (r.map Prod.snd)
        | .error e => g' = g ∧ out = .error e) := by
  constructor
  · intro sim st q p u st' out h hq
    rw [graph_query_falkor sim q p u st h] at hq
    cases hev : evalCypher sim (graphOf st u) q p with
    | error e =>
        rw [hev] at hq
        obtain ⟨hst, hout⟩ := Prod.mk.injEq .. ▸ hq
        rw [← hst]
        exact ⟨rfl, fun v hv => rfl, rfl, hout.symm⟩
    | ok pr =>
        cases pr with
        | mk g2 rows =>
            rw [hev] at hq
            obtain ⟨hst, hout⟩ := Prod.mk.injEq .. ▸ hq
            rw [← hst]
            refine ⟨rfl, fun v hv => ?_, ?_, hout.symm⟩
            · exact graphOf_putGraph_ne { st with current := u } u v g2 hv
            · exact graphOf_putGraph { st with current := u } u g2
  · intro sim g q p g' out hq
    rw [graph_query_neo sim q p g] at hq
    cases hev : evalCypher sim g q p with
    | error e =>
        rw [hev] at hq
        obtain ⟨hst, hout⟩ := Prod.mk.injEq .. ▸ hq
        exact ⟨hst.symm, hout.symm⟩
    | ok pr =>
        cases pr with
        | mk g2 rows =>
            rw [hev] at hq
            obtain ⟨hst, hout⟩ := Prod.mk.injEq .. ▸ hq
            exact ⟨hst.symm, hout.symm, fun r _ => rfl⟩

/-- Claim C9 witness: a concrete falkordb call selects graph u1 and leaves
graph u2 untouched, and a concrete neo4j record conversion strips names. -/
theorem c9_graph_query_provider_contract_witness :
    ((graph_query cfgF (falkorClient simZero) .mergeNodePair
        [("source", .vs "a"), ("target", .vs "b"), ("user_id", .vs "u1")]
        falkorEmpty).1.current = "u1" ∧
      graphOf (graph_query cfgF (falkorClient simZero) .mergeNodePair
        [("source", .vs "a"), ("target", .vs "b"), ("user_id", .vs "u1")]
        falkorEmpty).1 "u2" = graphOf falkorEmpty "u2") ∧
    (graph_query cfgN (neoClient simZero) (.createEdgeQ "knows")
        [("source", .vs "a"), ("target", .vs "b"), ("user_id", .vs "u1")]
        ⟨[⟨0, none, "a", "u1", none, none⟩, ⟨1, none, "b", "u1", none, none⟩],
         [], 2, 0⟩).2 =
      .ok [.vlist [.vnodeRef 0, .vedgeRef 0 "knows" 1, .vnodeRef 1]] := by
  have h1 := c9_graph_query_provider_contract.1 simZero falkorEmpty .mergeNodePair
    [("source", .vs "a"), ("target", .vs "b"), ("user_id", .vs "u1")] "u1"
    (graph_query cfgF (falkorClient simZero) .mergeNodePair
      [("source", .vs "a"), ("target", .vs "b"), ("user_id", .vs "u1")]
      falkorEmpty).1
    (graph_query cfgF (falkorClient simZero) .mergeNodePair
      [("source", .vs "a"), ("target", .vs "b"), ("user_id", .vs "u1")]
      falkorEmpty).2
    rfl rfl
  have h2 := c9_graph_query_provider_contract.2 simZero
    ⟨[⟨0, none, "a", "u1", none, none⟩, ⟨1, none, "b", "u1", none, none⟩], [], 2, 0⟩
    (.createEdgeQ "knows")
    [("source", .vs "a"), ("target", .vs "b"), ("user_id", .vs "u1")]
    (graph_query cfgN (neoClient simZero) (.createEdgeQ "knows")
      [("source", .vs "a"), ("target", .vs "b"), ("user_id", .vs "u1")]
      ⟨[⟨0, none, "a", "u1", none, none⟩, ⟨1, none, "b", "u1", none, none⟩],
       [], 2, 0⟩).1
    (graph_query cfgN (neoClient simZero) (.createEdgeQ "knows")
      [("source", .vs "a"), ("target", .vs "b"), ("user_id", .vs "u1")]
      ⟨[⟨0, none, "a", "u1", none, none⟩, ⟨1, none, "b", "u1", none, none⟩],
       [], 2, 0⟩).2
    rfl
  refine ⟨⟨h1.1, h1.2.1 "u2" (by decide)⟩, ?_⟩
  have h2v := h2.2.1
  rw [h2v]
  rfl

theorem mergePlain_nodes (g : GraphState) (nm uid : String) :
    ∀ nd ∈ (mergePlain g nm uid).nodes,
      nd ∈ g.nodes ∨ (nd.name = nm ∧ nd.userId = uid ∧ nd.label = none) := by
  intro nd hnd
  unfold mergePlain at hnd
  by_cases hempty : (matchPlain g nm uid).isEmpty
  · rw [if_pos hempty] at hnd
    simp only [List.mem_append, List.mem_singleton] at hnd
    rcases hnd with hnd | hnd
    · exact Or.inl hnd
    · rw [hnd]
      exact Or.inr ⟨rfl, rfl, rfl⟩
  · rw [if_neg hempty] at hnd
    exact Or.inl hnd

theorem mergePlain_edges (g : GraphState) (nm uid : String) :
    (mergePlain g nm uid).edges = g.edges := by
  unfold mergePlain
  split <;> rfl

theorem mergePairStep_nodes (g : GraphState) (s t uid : String) :
    ∀ nd ∈ (mergePairStep g s t uid).nodes,
      nd ∈ g.nodes ∨ ((nd.name = s ∨ nd.name = t) ∧ nd.userId = uid ∧
        nd.label = none) := by
  intro nd hnd
  unfold mergePairStep at hnd
  simp only at hnd
  rcases mergePlain_nodes (mergePlain g s uid) t uid nd hnd with h | h
  · rcases mergePlain_nodes g s uid nd h with h2 | h2
    · exact Or.inl h2
    · exact Or.inr ⟨Or.inl h2.1, h2.2⟩
  · exact Or.inr ⟨Or.inr h.1, h.2⟩

theorem mergePairStep_edges (g : GraphState) (s t uid : String) :
    (mergePairStep g s t uid).edges = g.edges := by
  unfold mergePairStep
  simp only [mergePlain_edges]

theorem deleteBetween_nodes (g : GraphState) (s t uid : String) :
    (deleteBetween g s t uid).nodes = g.nodes := rfl

theorem deleteBetween_edges (g : GraphState) (s t uid : String) :
    ∀ e ∈ (deleteBetween g s t uid).edges, e ∈ g.edges := by
  intro e he
  unfold deleteBetween at he
  simp only [List.mem_filter] at he
  exact he.1

theorem createBetween_nodes (g : GraphState) (s t uid rel : String) :
    (createBetween g s t uid rel).1.nodes = g.nodes := rfl

theorem createBetween_edges (g : GraphState) (s t uid rel : String) :
    ∀ e ∈ (createBetween g s t uid rel).1.edges, e ∈ g.edges ∨ e.typ = rel := by
  intro e he
  unfold createBetween at he
  simp only [List.mem_append, List.mem_map] at he
  rcases he with he | ⟨pr, _, rfl⟩
  · exact Or.inl he
  · exact Or.inr rfl

/-- Claim C10 theorem.  Confirmed: the update path normalizes only the
relationship label.  First conjunct, against an arbitrary store: the three
queries _update_relationship issues carry the source and target names
exactly as supplied, while the interpolated relation label of the creation
query is normalized.  Second conjunct, against the concrete neo4j client:
every node the update path adds carries the verbatim source or target name
with no label, and every edge it adds carries the normalized relation
label. -/
theorem c10_update_normalizes_only_relationship :
    (∀ (resp : Trace → CypherQuery → Params → Except String (List Value))
       (log : Trace) (s t r u : String) (filters : Params)
       (rows1 rows2 : List Value),
      lookupStr filters "user_id" = some u →
      resp log .mergeNodePair
        [("source", .vs s), ("target", .vs t), ("user_id", .vs u)] = .ok rows1 →
      resp (log ++ [(.mergeNodePair,
          [("source", .vs s), ("target", .vs t), ("user_id", .vs u)])])
        .deleteEdgesBetween
        [("source", .vs s), ("target", .vs t), ("user_id", .vs u)] = .ok rows2 →
      (_update_relationship cfgF (traceClient resp) s t r filters log).1 =
        log ++
          [(.mergeNodePair,
            [("source", .vs s), ("target", .vs t), ("user_id", .vs u)]),
           (.deleteEdgesBetween,
            [("source", .vs s), ("target", .vs t), ("user_id", .vs u)]),
           (.createEdgeQ (normalizeName r),
            [("source", .vs s), ("target", .vs t), ("user_id", .vs u)])]) ∧
    (∀ (sim : SimOracle) (s t r u : String) (filters : Params) (g : GraphState),
      lookupStr filters "user_id" = some u →
      (∀ nd ∈ (_update_relationship cfgN (neoClient sim) s t r filters g).1.nodes,
        nd ∈ g.nodes ∨ ((nd.name = s ∨ nd.name = t) ∧ nd.userId = u ∧
          nd.label = none)) ∧
      (∀ e ∈ (_update_relationship cfgN (neoClient sim) s t r filters g).1.edges,
        e ∈ g.edges ∨ e.typ = normalizeName r)) := by
  constructor
  · intro resp log s t r u filters rows1 rows2 hu h1 h2
    unfold _update_relationship
    simp only [hu]
    have hq1 : graph_query cfgF (traceClient resp) .mergeNodePair
        [("source", .vs s), ("target", .vs t), ("user_id", .vs u)] log =
        (log ++ [(.mergeNodePair,
          [("source", .vs s), ("target", .vs t), ("user_id", .vs u)])],
         .ok rows1) := by
      unfold graph_query cfgF traceClient
      simp only
      rw [show lookupV [("source", Value.vs s), ("target", .vs t),
            ("user_id", .vs u)] "user_id" = some (.vs u) from rfl]
      simp only [h1]
    have hq2 : graph_query cfgF (traceClient resp) .deleteEdgesBetween
        [("source", .vs s), ("target", .vs t), ("user_id", .vs u)]
        (log ++ [(.mergeNodePair,
          [("source", .vs s), ("target", .vs t), ("user_id", .vs u)])]) =
        (log ++ [(.mergeNodePair,
            [("source", .vs s), ("target", .vs t), ("user_id", .vs u)]),
          (.deleteEdgesBetween,
            [("source", .vs s), ("target", .vs t), ("user_id", .vs u)])],
         .ok rows2) := by
      unfold graph_query cfgF traceClient
      simp only
      rw [show lookupV [("source", Value.vs s), ("target", .vs t),
            ("user_id", .vs u)] "user_id" = some (.vs u) from rfl]
      simp only [h2, List.append_assoc, List.cons_append, List.nil_append]
    rw [hq1]
    simp only
    rw [hq2]
    simp only
    unfold graph_query cfgF traceClient
    simp only
    rw [show lookupV [("source", Value.vs s), ("target", .vs t),
          ("user_id", .vs u)] "user_id" = some (.vs u) from rfl]
    simp only
    cases hresp : resp (log ++ [(.mergeNodePair,
          [("source", .vs s), ("target", .vs t), ("user_id", .vs u)]),
        (.deleteEdgesBetween,
          [("source", .vs s), ("target", .vs t), ("user_id", .vs u)])])
        (.createEdgeQ (normalizeName r))
        [("source", .vs s), ("target", .vs t), ("user_id", .vs u)] with
    | error e => simp [List.append_assoc]
    | ok rows3 =>
        cases hrows : rows3.isEmpty <;> simp [hrows, List.append_assoc]
  · intro sim s t r u filters g hu
    have hst : (_update_relationship cfgN (neoClient sim) s t r filters g).1 =
        (createBetween (deleteBetween (mergePairStep g s t u) s t u) s t u
          (normalizeName r)).1 := by
      unfold _update_relationship
      simp only [hu]
      rw [graph_query_neo]
      simp only [show evalCypher sim g .mergeNodePair
        [("source", Value.vs s), ("target", .vs t), ("user_id", .vs u)] =
        .ok (mergePairStep g s t u, []) from rfl]
      rw [graph_query_neo]
      simp only [show evalCypher sim (mergePairStep g s t u) .deleteEdgesBetween
        [("source", Value.vs s), ("target", .vs t), ("user_id", .vs u)] =
        .ok (deleteBetween (mergePairStep g s t u) s t u, []) from rfl]
      rw [graph_query_neo]
      simp only [show evalCypher sim (deleteBetween (mergePairStep g s t u) s t u)
        (.createEdgeQ (normalizeName r))
        [("source", Value.vs s), ("target", .vs t), ("user_id", .vs u)] =
        .ok ((createBetween (deleteBetween (mergePairStep g s t u) s t u) s t u
          (normalizeName r)).1,
          (createBetween (deleteBetween (mergePairStep g s t u) s t u) s t u
            (normalizeName r)).2.map (fun pr =>
              [("n1", .vnodeRef pr.1),
               ("r", .vedgeRef pr.1 (normalizeName r) pr.2),
               ("n2", .vnodeRef pr.2)])) from rfl]
      split <;> rfl
    constructor
    · intro nd hnd
      rw [hst] at hnd
      rw [createBetween_nodes, deleteBetween_nodes] at hnd
      exact mergePairStep_nodes g s t u nd hnd
    · intro e he
      rw [hst] at he
      rcases createBetween_edges (deleteBetween (mergePairStep g s t u) s t u)
        s t u (normalizeName r) e he with h | h
      · have h2 := deleteBetween_edges (mergePairStep g s t u) s t u e h
        rw [mergePairStep_edges] at h2
        exact Or.inl h2
      · exact Or.inr h

/-- Claim C10 witness: an update decision with uppercase, spaced names
issues its queries with the names verbatim while the relation label becomes
works_at, and the node created on the neo4j path keeps the raw name. -/
theorem c10_update_normalizes_only_relationship_witness :
    (_update_relationship cfgF (traceClient respEmpty) "Alice Smith" "Bob"
        "Works At" [("user_id", .vs "u1")] []).1 =
      [(.mergeNodePair,
        [("source", .vs "Alice Smith"), ("target", .vs "Bob"),
         ("user_id", .vs "u1")]),
       (.deleteEdgesBetween,
        [("source", .vs "Alice Smith"), ("target", .vs "Bob"),
         ("user_id", .vs "u1")]),
       (.createEdgeQ "works_at",
        [("source", .vs "Alice Smith"), ("target", .vs "Bob"),
         ("user_id", .vs "u1")])] ∧
    ((⟨0, none, "Alice Smith", "u1", none, none⟩ : Node) ∈ emptyGraph.nodes ∨
      ((("Alice Smith" : String) = "Alice Smith" ∨
          ("Alice Smith" : String) = "Bob") ∧
        ("u1" : String) = "u1" ∧ (none : Option String) = none)) :=
  ⟨c10_update_normalizes_only_relationship.1 respEmpty [] "Alice Smith" "Bob"
      "Works At" "u1" [("user_id", .vs "u1")] [] [] rfl rfl rfl,
   (c10_update_normalizes_only_relationship.2 simZero "Alice Smith" "Bob"
      "Works At" "u1" [("user_id", .vs "u1")] emptyGraph rfl).1
     ⟨0, none, "Alice Smith", "u1", none, none⟩ (by decide)⟩

/-- Scoring oracle that ranks everything equally. -/
def scoreZero : List String → List Value → Rat := fun _ _ => 0

/-- Claim C7 counterexample.  The claim says every add or search against an
unsupported provider raises a configuration error; here a search against
provider chroma whose entity extraction yields no entities completes
without any error, returning the empty list, because the provider check
sits inside the per-entity retrieval loop and the loop body never runs. -/
theorem c7_counterexample_empty_entities_no_error :
    search ⟨.other "chroma"⟩ (traceClient respEmpty) embedZero scoreZero
      (Json.obj []) "q" [("user_id", .vs "u1")] 100 [] = ([], .ok []) := rfl

/-- Claim C7 theorem (amended).  For an unsupported provider, any add or
search whose entity extraction yields at least one entity raises the
configuration error synchronously inside the first retrieval iteration,
before any query reaches the client: the client state comes back unchanged
for an arbitrary client, and the error propagates out of the internal
search, out of search and out of add. -/
theorem c7_unsupported_provider_raises {σ : Type} (cl : Client σ)
    (embed : Json → List Rat) (entityResp : Json) (filters : Params)
    (limit : Int) (st : σ) (name : String)
    (h : collectEntities entityResp ≠ []) :
    _search ⟨.other name⟩ cl embed entityResp filters limit st =
      (st, .error unsupportedMsg) ∧
    (∀ (score : List String → List Value → Rat) (query : String),
      search ⟨.other name⟩ cl embed score entityResp query filters limit st =
        (st, .error unsupportedMsg)) ∧
    (∀ (relResp : Json) (decisions : List Decision),
      add ⟨.other name⟩ cl embed entityResp relResp decisions filters st =
        (st, .error unsupportedMsg)) := by
  have hs : _search ⟨.other name⟩ cl embed entityResp filters limit st =
      (st, .error unsupportedMsg) := by
    unfold _search
    cases hk : collectEntities entityResp with
    | nil => exact absurd hk h
    | cons k ks => rfl
  refine ⟨hs, ?_, ?_⟩
  · intro score query
    unfold search
    rw [hs]
  · intro relResp decisions
    unfold add
    have hs100 : _search ⟨.other name⟩ cl embed entityResp filters 100 st =
        (st, .error unsupportedMsg) := by
      unfold _search
      cases hk : collectEntities entityResp with
      | nil => exact absurd hk h
      | cons k ks => rfl
    rw [hs100]

/-- Claim C7 witness: one extracted entity and the chroma provider make
search and add propagate the configuration error with the client state
untouched. -/
theorem c7_unsupported_provider_raises_witness :
    search ⟨.other "chroma"⟩ (traceClient respEmpty) embedZero scoreZero
      (Json.obj [("tool_calls", .arr [.obj [("arguments", .obj [("entities",
        .arr [.obj [("entity", .str "alice"), ("entity_type", .str "person")]])])]])])
      "q" [("user_id", .vs "u1")] 100 [] = ([], .error unsupportedMsg) ∧
    add ⟨.other "chroma"⟩ (traceClient respEmpty) embedZero
      (Json.obj [("tool_calls", .arr [.obj [("arguments", .obj [("entities",
        .arr [.obj [("entity", .str "alice"), ("entity_type", .str "person")]])])]])])
      (Json.obj []) [] [("user_id", .vs "u1")] [] = ([], .error unsupportedMsg) := by
  have hne : collectEntities
      (Json.obj [("tool_calls", .arr [.obj [("arguments", .obj [("entities",
        .arr [.obj [("entity", .str "alice"), ("entity_type", .str "person")]])])]])]) ≠
      [] := by
    intro hcon
    rw [show collectEntities
      (Json.obj [("tool_calls", .arr [.obj [("arguments", .obj [("entities",
        .arr [.obj [("entity", .str "alice"), ("entity_type", .str "person")]])])]])]) =
      [(.str "alice", .str "person")] from rfl] at hcon
    exact List.noConfusion hcon
  have hc := c7_unsupported_provider_raises (traceClient respEmpty) embedZero
    (Json.obj [("tool_calls", .arr [.obj [("arguments", .obj [("entities",
      .arr [.obj [("entity", .str "alice"), ("entity_type", .str "person")]])])]])])
    [("user_id", .vs "u1")] 100 [] "chroma" hne
  exact ⟨hc.2.1 scoreZero "q", hc.2.2 (Json.obj []) []⟩

theorem decisionLoop_append (cfg : Config) (cl : Client σ) (filters : Params)
    (l1 l2 : List Decision) (st : σ) :
    decisionLoop cfg cl filters (l1 ++ l2) st =
      match decisionLoop cfg cl filters l1 st with
      | (st1, .ok b1) =>
          match decisionLoop cfg cl filters l2 st1 with
          | (st2, .ok b2) => (st2, .ok (b1 ++ b2))
          | (st2, .error e) => (st2, .error e)
      | (st1, .error e) => (st1, .error e) := by
  induction l1 generalizing st with
  | nil =>
      simp only [List.nil_append, decisionLoop]
      cases h2 : decisionLoop cfg cl filters l2 st with
      | mk st2 r2 => cases r2 <;> simp
  | cons d l1' ih =>
      cases d with
      | addMem a =>
          simp only [List.cons_append, decisionLoop, List.append_eq]
          rw [ih st]
          cases hl1 : decisionLoop cfg cl filters l1' st with
          | mk st1 r1 =>
              cases r1 with
              | error e => rfl
              | ok b1 =>
                  dsimp only
                  cases hl2 : decisionLoop cfg cl filters l2 st1 with
                  | mk st2 r2 => cases r2 <;> rfl
      | updateMem s t r =>
          simp only [List.cons_append, decisionLoop, List.append_eq]
          cases hup : _update_relationship cfg cl s t r filters st with
          | mk st1 r1 =>
              cases r1 with
              | error e => rfl
              | ok u0 => exact ih st1
      | noopCall =>
          simp only [List.cons_append, decisionLoop, List.append_eq]
          exact ih st
      | otherTool nm =>
          simp only [List.cons_append, decisionLoop, List.append_eq]
          exact ih st

theorem update_relationship_trace_createEmpty
    (resp : Trace → CypherQuery → Params → Except String (List Value))
    (log : Trace) (s t r u : String) (filters : Params)
    (rows1 rows2 : List Value)
    (hu : lookupStr filters "user_id" = some u)
    (h1 : resp log .mergeNodePair
      [("source", .vs s), ("target", .vs t), ("user_id", .vs u)] = .ok rows1)
    (h2 : resp (log ++ [(.mergeNodePair,
        [("source", .vs s), ("target", .vs t), ("user_id", .vs u)])])
      .deleteEdgesBetween
      [("source", .vs s), ("target", .vs t), ("user_id", .vs u)] = .ok rows2)
    (h3 : resp (log ++ [(.mergeNodePair,
        [("source", .vs s), ("target", .vs t), ("user_id", .vs u)]),
        (.deleteEdgesBetween,
        [("source", .vs s), ("target", .vs t), ("user_id", .vs u)])])
      (.createEdgeQ (normalizeName r))
      [("source", .vs s), ("target", .vs t), ("user_id", .vs u)] = .ok []) :
    _update_relationship cfgF (traceClient resp) s t r filters log =
      (log ++
        [(.mergeNodePair,
          [("source", .vs s), ("target", .vs t), ("user_id", .vs u)]),
         (.deleteEdgesBetween,
          [("source", .vs s), ("target", .vs t), ("user_id", .vs u)]),
         (.createEdgeQ (normalizeName r),
          [("source", .vs s), ("target", .vs t), ("user_id", .vs u)])],
       .error (updateFailMsg s t)) := by
  unfold _update_relationship
  simp only [hu]
  unfold graph_query cfgF traceClient
  simp only
  rw [show lookupV [("source", Value.vs s), ("target", .vs t),
        ("user_id", .vs u)] "user_id" = some (.vs u) from rfl]
  simp only [h1]
  simp only [h2, List.append_assoc, List.cons_append, List.nil_append]
  simp only [h3, List.append_assoc, List.cons_append, List.nil_append]
  rfl

/-- Claim C3 theorem.  Confirmed: when the edge-creation query of an update
decision returns no rows, the update path raises and the exception
propagates out of add; the trace of queries the store has received ends
with exactly the node merge, the edge deletion and the failed creation of
that update, on top of everything issued earlier in the same add call, and
nothing follows them: no compensating query is issued, later decisions and
the addition loop never run, so all mutations already applied remain. -/
theorem c3_update_create_empty_aborts_add_no_rollback
    (resp : Trace → CypherQuery → Params → Except String (List Value))
    (log0 log1 log2 : Trace) (embed : Json → List Rat)
    (entityResp relResp : Json) (pre suf : List Decision)
    (s d r u : String) (filters : Params) (so : List Value) (etm : EntityMap)
    (buf : List AddArgs) (rows1 rows2 : List Value)
    (hu : lookupStr filters "user_id" = some u)
    (hsearch : _search cfgF (traceClient resp) embed entityResp filters 100 log0 =
      (log1, .ok (so, etm)))
    (hpre : decisionLoop cfgF (traceClient resp) filters pre log1 =
      (log2, .ok buf))
    (h1 : resp log2 .mergeNodePair
      [("source", .vs s), ("target", .vs d), ("user_id", .vs u)] = .ok rows1)
    (h2 : resp (log2 ++ [(.mergeNodePair,
        [("source", .vs s), ("target", .vs d), ("user_id", .vs u)])])
      .deleteEdgesBetween
      [("source", .vs s), ("target", .vs d), ("user_id", .vs u)] = .ok rows2)
    (h3 : resp (log2 ++ [(.mergeNodePair,
        [("source", .vs s), ("target", .vs d), ("user_id", .vs u)]),
        (.deleteEdgesBetween,
        [("source", .vs s), ("target", .vs d), ("user_id", .vs u)])])
      (.createEdgeQ (normalizeName r))
      [("source", .vs s), ("target", .vs d), ("user_id", .vs u)] = .ok []) :
    add cfgF (traceClient resp) embed entityResp relResp
      (pre ++ .updateMem s d r :: suf) filters log0 =
      (log2 ++
        [(.mergeNodePair,
          [("source", .vs s), ("target", .vs d), ("user_id", .vs u)]),
         (.deleteEdgesBetween,
          [("source", .vs s), ("target", .vs d), ("user_id", .vs u)]),
         (.createEdgeQ (normalizeName r),
          [("source", .vs s), ("target", .vs d), ("user_id", .vs u)])],
       .error (updateFailMsg s d)) := by
  unfold add
  rw [hsearch]
  simp only
  rw [decisionLoop_append]
  rw [hpre]
  simp only [decisionLoop]
  rw [update_relationship_trace_createEmpty resp log2 s d r u filters
    rows1 rows2 hu h1 h2 h3]

/-- Claim C3 witness: an add call consisting of a single update decision
whose oracle answers every query with no rows ends in the update-failure
error, with the trace holding exactly the three update queries. -/
theorem c3_update_create_empty_aborts_add_no_rollback_witness :
    add cfgF (traceClient respEmpty) embedZero (Json.obj []) (Json.obj [])
      [.updateMem "alice" "acme" "works at"] [("user_id", .vs "u1")] [] =
      ([(.mergeNodePair,
          [("source", .vs "alice"), ("target", .vs "acme"),
           ("user_id", .vs "u1")]),
        (.deleteEdgesBetween,
          [("source", .vs "alice"), ("target", .vs "acme"),
           ("user_id", .vs "u1")]),
        (.createEdgeQ "works_at",
          [("source", .vs "alice"), ("target", .vs "acme"),
           ("user_id", .vs "u1")])],
       .error (updateFailMsg "alice" "acme")) :=
  c3_update_create_empty_aborts_add_no_rollback respEmpty [] [] [] embedZero
    (Json.obj []) (Json.obj []) [] [] "alice" "acme" "works at" "u1"
    [("user_id", .vs "u1")] [] [] [] [] [] rfl rfl rfl rfl rfl rfl

/-- Arguments buffered by one decision: add_graph_memory buffers its
arguments, every other tool call buffers nothing. -/
def bufferedOf : Decision → Option AddArgs
  | .addMem a => some a
  | _ => none

/-- Triple contributed to the return value of add by one decision. -/
def returnedOf : Decision → Option RelTriple
  | .addMem a => some ⟨normalizeName a.source, normalizeName a.relationship,
      normalizeName a.destination⟩
  | _ => none

theorem decisionLoop_ok_buffer (cfg : Config) (cl : Client σ) (filters : Params)
    (ds : List Decision) (st st1 : σ) (buf : List AddArgs)
    (h : decisionLoop cfg cl filters ds st = (st1, .ok buf)) :
    buf = ds.filterMap bufferedOf := by
  induction ds generalizing st st1 buf with
  | nil =>
      simp only [decisionLoop] at h
      obtain ⟨_, hb⟩ := Prod.mk.injEq .. ▸ h
      simp [← Except.ok.injEq .. |>.mp hb]
  | cons d rest ih =>
      cases d with
      | addMem a =>
          simp only [decisionLoop] at h
          cases hrest : decisionLoop cfg cl filters rest st with
          | mk st' r =>
              rw [hrest] at h
              cases r with
              | error e => simp at h
              | ok b =>
                  simp only at h
                  obtain ⟨hst, hb⟩ := Prod.mk.injEq .. ▸ h
                  have hb2 : a :: b = buf := Except.ok.injEq .. |>.mp hb
                  rw [← hb2, ih st st' b hrest]
                  simp [List.filterMap_cons, bufferedOf]
      | updateMem s t r =>
          simp only [decisionLoop] at h
          cases hup : _update_relationship cfg cl s t r filters st with
          | mk st' ru =>
              rw [hup] at h
              cases ru with
              | error e => simp at h
              | ok u0 =>
                  simp only at h
                  rw [ih st' st1 buf h]
                  simp [List.filterMap_cons, bufferedOf]
      | noopCall =>
          simp only [decisionLoop] at h
          rw [ih st st1 buf h]
          simp [List.filterMap_cons, bufferedOf]
      | otherTool nm =>
          simp only [decisionLoop] at h
          rw [ih st st1 buf h]
          simp [List.filterMap_cons, bufferedOf]

theorem addLoop_ok_triples (cfg : Config) (cl : Client σ)
    (embed : Json → List Rat) (filters : Params) (items : List AddArgs)
    (st st1 : σ) (ts : List RelTriple)
    (h : addLoop cfg cl embed filters items st = (st1, .ok ts)) :
    ts = items.map (fun a =>
      (⟨normalizeName a.source, normalizeName a.relationship,
        normalizeName a.destination⟩ : RelTriple)) := by
  induction items generalizing st st1 ts with
  | nil =>
      simp only [addLoop] at h
      obtain ⟨_, hb⟩ := Prod.mk.injEq .. ▸ h
      simp [← Except.ok.injEq .. |>.mp hb]
  | cons a rest ih =>
      simp only [addLoop] at h
      cases hu : lookupStr filters "user_id" with
      | none => rw [hu] at h; simp at h
      | some u =>
          rw [hu] at h
          simp only at h
          cases hq : graph_query cfg cl
              (.addTriple (normalizeName a.sourceType)
                (normalizeName a.destinationType) (normalizeName a.relationship))
              [("source_name", .vs (normalizeName a.source)),
               ("dest_name", .vs (normalizeName a.destination)),
               ("source_embedding", .vvec (embed (.str (normalizeName a.source)))),
               ("dest_embedding", .vvec (embed (.str (normalizeName a.destination)))),
               ("user_id", .vs u)] st with
          | mk st' rq =>
              rw [hq] at h
              cases rq with
              | error e => simp at h
              | ok rows =>
                  simp only at h
                  cases hrest : addLoop cfg cl embed filters rest st' with
                  | mk st'' rr =>
                      rw [hrest] at h
                      cases rr with
                      | error e => simp at h
                      | ok ts' =>
                          simp only at h
                          obtain ⟨hst, hb⟩ := Prod.mk.injEq .. ▸ h
                          have hb2 := Except.ok.injEq .. |>.mp hb
                          rw [← hb2, ih st' st'' ts' hrest]
                          simp

theorem add_ok_returnedOf {σ : Type} (cfg : Config)
    (cl : Client σ) (embed : Json → List Rat) (entityResp relResp : Json)
    (decisions : List Decision) (filters : Params) (st st' : σ)
    (ts : List RelTriple)
    (h : add cfg cl embed entityResp relResp decisions filters st =
      (st', .ok ts)) :
    ts = decisions.filterMap returnedOf := by
  unfold add at h
  cases hs : _search cfg cl embed entityResp filters 100 st with
  | mk st1 rs =>
      rw [hs] at h
      cases rs with
      | error e => simp at h
      | ok pr =>
          simp only at h
          cases hd : decisionLoop cfg cl filters decisions st1 with
          | mk st2 rd =>
              rw [hd] at h
              cases rd with
              | error e => simp at h
              | ok buf =>
                  simp only at h
                  have hts := addLoop_ok_triples cfg cl embed filters buf st2 st' ts h
                  rw [hts, decisionLoop_ok_buffer cfg cl filters decisions st1 st2 buf hd]
                  rw [List.map_filterMap]
                  apply List.filterMap_congr
                  intro d _
                  cases d <;> rfl

/-- Claim C4 theorem.  Confirmed: whenever add completes, its return value
holds exactly one normalized source, relationship, target triple per
add_graph_memory decision, in decision order, and no triple for any
update_graph_memory, noop, or unrecognized decision; relations applied
through the update path are absent from the return value. -/
theorem c4_add_returns_exactly_buffered_triples {σ : Type} (cfg : Config)
    (cl : Client σ) (embed : Json → List Rat) (entityResp relResp : Json)
    (decisions : List Decision) (filters : Params) (st st' : σ)
    (ts : List RelTriple)
    (h : add cfg cl embed entityResp relResp decisions filters st =
      (st', .ok ts)) :
    ts = decisions.filterMap returnedOf :=
  add_ok_returnedOf cfg cl embed entityResp relResp decisions filters st st' ts h

/-- Claim C4 witness: one add decision, one noop and one update produce a
single normalized triple for the add decision only. -/
theorem c4_add_returns_exactly_buffered_triples_witness :
    ([(⟨"alice", "works_at", "acme_corp"⟩ : RelTriple)]) =
      ([Decision.addMem ⟨"Alice", "Person", "Works At", "Acme Corp", "Org"⟩,
        .noopCall, .updateMem "a" "b" "c"].filterMap returnedOf) :=
  c4_add_returns_exactly_buffered_triples cfgN (neoClient simZero) embedZero
    (Json.obj []) (Json.obj [])
    [Decision.addMem ⟨"Alice", "Person", "Works At", "Acme Corp", "Org"⟩,
     .noopCall, .updateMem "a" "b" "c"]
    [("user_id", .vs "u1")] emptyGraph
    (add cfgN (neoClient simZero) embedZero (Json.obj []) (Json.obj [])
      [Decision.addMem ⟨"Alice", "Person", "Works At", "Acme Corp", "Org"⟩,
       .noopCall, .updateMem "a" "b" "c"]
      [("user_id", .vs "u1")] emptyGraph).1
    [⟨"alice", "works_at", "acme_corp"⟩] rfl

/-- A node is in normal form when its name and its label, if any, contain
no space and no uppercase letter. -/
def normNode (nd : Node) : Prop :=
  normStr nd.name = true ∧ ∀ lab, nd.label = some lab → normStr lab = true

/-- A node whose name and label already occur on a node of the earlier
graph. -/
def nodePreserved (g : GraphState) (nd : Node) : Prop :=
  ∃ nd0 ∈ g.nodes, nd0.name = nd.name ∧ nd0.label = nd.label

theorem normNode_transfer (nd0 nd : Node) (hn : nd0.name = nd.name)
    (hl : nd0.label = nd.label) (h : normNode nd0) : normNode nd := by
  unfold normNode at *
  rw [← hn, ← hl]
  exact h

theorem nodePreserved_trans (g g1 : GraphState) (nd : Node)
    (hstep : ∀ nd1 ∈ g1.nodes, nodePreserved g nd1 ∨ normNode nd1)
    (hp : nodePreserved g1 nd) : nodePreserved g nd ∨ normNode nd := by
  obtain ⟨nd1, hnd1, hn, hl⟩ := hp
  rcases hstep nd1 hnd1 with h | h
  · obtain ⟨nd0, hnd0, hn0, hl0⟩ := h
    exact Or.inl ⟨nd0, hnd0, hn0.trans hn, hl0.trans hl⟩
  · exact Or.inr (normNode_transfer nd1 nd hn hl h)

theorem mergeTyped_nodes (g : GraphState) (lab nm uid : String)
    (emb : List Rat) : ∀ nd ∈ (mergeTyped g lab nm uid emb).1.nodes,
      nodePreserved g nd ∨ (nd.name = nm ∧ nd.label = some lab) := by
  intro nd hnd
  unfold mergeTyped at hnd
  by_cases hempty : (matchTyped g lab nm uid).isEmpty
  · rw [if_pos hempty] at hnd
    simp only [List.mem_append, List.mem_singleton] at hnd
    rcases hnd with hnd | hnd
    · exact Or.inl ⟨nd, hnd, rfl, rfl⟩
    · rw [hnd]
      exact Or.inr ⟨rfl, rfl⟩
  · rw [if_neg hempty] at hnd
    simp only [List.mem_map] at hnd
    obtain ⟨nd0, hnd0, hf⟩ := hnd
    by_cases hm : nd0.label == some lab && nd0.name == nm && nd0.userId == uid
    · rw [if_pos hm] at hf
      exact Or.inl ⟨nd0, hnd0, by rw [← hf], by rw [← hf]⟩
    · rw [if_neg hm] at hf
      exact Or.inl ⟨nd0, hnd0, by rw [hf], by rw [hf]⟩

theorem mergeTyped_edges (g : GraphState) (lab nm uid : String)
    (emb : List Rat) : (mergeTyped g lab nm uid emb).1.edges = g.edges := by
  by_cases hempty : (matchTyped g lab nm uid).isEmpty
  · simp [mergeTyped, hempty]
  · simp [mergeTyped, hempty]

theorem mergeEdges_nodes (g : GraphState) (pairs : List (Nat × Nat))
    (rel : String) : (mergeEdges g pairs rel).nodes = g.nodes := by
  induction pairs generalizing g with
  | nil => rfl
  | cons pr rest ih =>
      unfold mergeEdges at *
      simp only [List.foldl_cons]
      rw [ih]
      split <;> rfl

theorem mergeEdges_edges (g : GraphState) (pairs : List (Nat × Nat))
    (rel : String) : ∀ e ∈ (mergeEdges g pairs rel).edges,
      e ∈ g.edges ∨ e.typ = rel := by
  induction pairs generalizing g with
  | nil => intro e he; exact Or.inl he
  | cons pr rest ih =>
      intro e he
      by_cases hc : g.edges.any (fun e0 =>
          e0.src == pr.1 && e0.typ == rel && e0.dst == pr.2)
      · have he2 : e ∈ (mergeEdges g rest rel).edges := by
          unfold mergeEdges at he ⊢
          simp only [List.foldl_cons] at he
          rw [if_pos hc] at he
          exact he
        exact ih g e he2
      · have he2 : e ∈ (mergeEdges
            { g with edges := g.edges ++ [⟨pr.1, rel, pr.2, some g.time⟩] }
            rest rel).edges := by
          unfold mergeEdges at he ⊢
          simp only [List.foldl_cons] at he
          rw [if_neg hc] at he
          exact he
        rcases ih _ e he2 with hin | htyp
        · simp only [List.mem_append, List.mem_singleton] at hin
          rcases hin with hin | hin
          · exact Or.inl hin
          · rw [hin]
            exact Or.inr rfl
        · exact Or.inr htyp

theorem addTripleStep_nodes (g : GraphState) (sTy dTy rel sn dn uid : String)
    (se de : List Rat) :
    ∀ nd ∈ (addTripleStep g sTy dTy rel sn dn uid se de).1.nodes,
      nodePreserved g nd ∨
        ((nd.name = sn ∧ nd.label = some sTy) ∨
         (nd.name = dn ∧ nd.label = some dTy)) := by
  intro nd hnd
  unfold addTripleStep at hnd
  simp only at hnd
  rw [mergeEdges_nodes] at hnd
  rcases mergeTyped_nodes (mergeTyped g sTy sn uid se).1 dTy dn uid de nd hnd
    with h | h
  · obtain ⟨nd1, hnd1, hn, hl⟩ := h
    rcases mergeTyped_nodes g sTy sn uid se nd1 hnd1 with h2 | h2
    · obtain ⟨nd0, hnd0, hn0, hl0⟩ := h2
      exact Or.inl ⟨nd0, hnd0, hn0.trans hn, hl0.trans hl⟩
    · exact Or.inr (Or.inl ⟨hn ▸ h2.1, hl ▸ h2.2⟩)
  · exact Or.inr (Or.inr h)

theorem addTripleStep_edges (g : GraphState) (sTy dTy rel sn dn uid : String)
    (se de : List Rat) :
    ∀ e ∈ (addTripleStep g sTy dTy rel sn dn uid se de).1.edges,
      e ∈ g.edges ∨ e.typ = rel := by
  intro e he
  unfold addTripleStep at he
  simp only at he
  rcases mergeEdges_edges (mergeTyped (mergeTyped g sTy sn uid se).1 dTy dn uid de).1
    _ rel e he with h | h
  · rw [mergeTyped_edges, mergeTyped_edges] at h
    exact Or.inl h
  · exact Or.inr h

theorem addLoop_cons_state (cfg : Config) (cl : Client σ)
    (embed : Json → List Rat) (filters : Params) (a : AddArgs)
    (rest : List AddArgs) (st : σ) :
    (addLoop cfg cl embed filters (a :: rest) st).1 =
      match lookupStr filters "user_id" with
      | none => st
      | some u =>
          match graph_query cfg cl
            (.addTriple (normalizeName a.sourceType)
              (normalizeName a.destinationType) (normalizeName a.relationship))
            [("source_name", .vs (normalizeName a.source)),
             ("dest_name", .vs (normalizeName a.destination)),
             ("source_embedding", .vvec (embed (.str (normalizeName a.source)))),
             ("dest_embedding", .vvec (embed (.str (normalizeName a.destination)))),
             ("user_id", .vs u)] st with
          | (st', .error e) => st'
          | (st', .ok rows) => (addLoop cfg cl embed filters rest st').1 := by
  simp only [addLoop]
  cases hu : lookupStr filters "user_id" with
  | none => rfl
  | some u =>
      simp only
      cases hq : graph_query cfg cl
          (.addTriple (normalizeName a.sourceType)
            (normalizeName a.destinationType) (normalizeName a.relationship))
          [("source_name", .vs (normalizeName a.source)),
           ("dest_name", .vs (normalizeName a.destination)),
           ("source_embedding", .vvec (embed (.str (normalizeName a.source)))),
           ("dest_embedding", .vvec (embed (.str (normalizeName a.destination)))),
           ("user_id", .vs u)] st with
      | mk st' rq =>
          cases rq with
          | error e => rfl
          | ok rows =>
              dsimp only
              cases hrest : addLoop cfg cl embed filters rest st' with
              | mk st'' rr => cases rr <;> rfl

theorem graph_query_neo_addTriple (sim : SimOracle) (g : GraphState)
    (sTy dTy rel sn dn u : String) (se de : List Rat) :
    graph_query cfgN (neoClient sim) (.addTriple sTy dTy rel)
      [("source_name", .vs sn), ("dest_name", .vs dn),
       ("source_embedding", .vvec se), ("dest_embedding", .vvec de),
       ("user_id", .vs u)] g =
      ((addTripleStep g sTy dTy rel sn dn u se de).1,
       .ok (((addTripleStep g sTy dTy rel sn dn u se de).2.map (fun pr =>
           [("n", Value.vnodeRef pr.1), ("rel", Value.vedgeRef pr.1 rel pr.2),
            ("m", Value.vnodeRef pr.2)])).map
         (fun r => Value.vlist (r.map Prod.snd)))) := by
  rw [graph_query_neo]
  rfl

theorem graph_query_falkor_addTriple (sim : SimOracle) (fs : FalkorState)
    (sTy dTy rel sn dn u : String) (se de : List Rat) :
    graph_query cfgF (falkorClient sim) (.addTriple sTy dTy rel)
      [("source_name", .vs sn), ("dest_name", .vs dn),
       ("source_embedding", .vvec se), ("dest_embedding", .vvec de),
       ("user_id", .vs u)] fs =
      (putGraph { fs with current := u } u
         (addTripleStep (graphOf fs u) sTy dTy rel sn dn u se de).1,
       .ok (((addTripleStep (graphOf fs u) sTy dTy rel sn dn u se de).2.map
           (fun pr =>
             [("n", Value.vnodeRef pr.1), ("rel", Value.vedgeRef pr.1 rel pr.2),
              ("m", Value.vnodeRef pr.2)])).map
         (fun r => Value.vlist (r.map Prod.snd)))) := by
  rw [graph_query_falkor sim (.addTriple sTy dTy rel)
    [("source_name", .vs sn), ("dest_name", .vs dn),
     ("source_embedding", .vvec se), ("dest_embedding", .vvec de),
     ("user_id", .vs u)] u fs rfl]
  rfl

theorem addTripleStep_norm_nodes (g : GraphState) (a : AddArgs) (u : String)
    (se de : List Rat) :
    ∀ nd ∈ (addTripleStep g (normalizeName a.sourceType)
        (normalizeName a.destinationType) (normalizeName a.relationship)
        (normalizeName a.source) (normalizeName a.destination) u se de).1.nodes,
      nodePreserved g nd ∨ normNode nd := by
  intro nd hnd
  rcases addTripleStep_nodes g (normalizeName a.sourceType)
      (normalizeName a.destinationType) (normalizeName a.relationship)
      (normalizeName a.source) (normalizeName a.destination) u se de nd hnd
    with h | h
  · exact Or.inl h
  · right
    rcases h with ⟨hn, hl⟩ | ⟨hn, hl⟩ <;>
      exact ⟨hn ▸ normStr_normalizeName _,
             fun lab hlab => by
               rw [hl] at hlab
               cases hlab
               exact normStr_normalizeName _⟩

theorem addLoop_neo_writes (sim : SimOracle) (embed : Json → List Rat)
    (filters : Params) (items : List AddArgs) (g : GraphState) :
    (∀ nd ∈ ((addLoop cfgN (neoClient sim) embed filters items g).1).nodes,
      nodePreserved g nd ∨ normNode nd) ∧
    (∀ e ∈ ((addLoop cfgN (neoClient sim) embed filters items g).1).edges,
      e ∈ g.edges ∨ normStr e.typ = true) := by
  induction items generalizing g with
  | nil => exact ⟨fun nd hnd => Or.inl ⟨nd, hnd, rfl, rfl⟩, fun e he => Or.inl he⟩
  | cons a rest ih =>
      cases hu : lookupStr filters "user_id" with
      | none =>
          simp only [addLoop_cons_state, hu]
          exact ⟨fun nd hnd => Or.inl ⟨nd, hnd, rfl, rfl⟩, fun e he => Or.inl he⟩
      | some u =>
          simp only [addLoop_cons_state, hu, graph_query_neo_addTriple]
          constructor
          · intro nd hnd
            rcases (ih _).1 nd hnd with hp | hn
            · exact nodePreserved_trans g _ nd
                (addTripleStep_norm_nodes g a u _ _) hp
            · exact Or.inr hn
          · intro e he
            rcases (ih _).2 e he with hp | hn
            · rcases addTripleStep_edges g (normalizeName a.sourceType)
                (normalizeName a.destinationType) (normalizeName a.relationship)
                (normalizeName a.source) (normalizeName a.destination) u
                (embed (.str (normalizeName a.source)))
                (embed (.str (normalizeName a.destination))) e hp with h | h
              · exact Or.inl h
              · exact Or.inr (h ▸ normStr_normalizeName _)
            · exact Or.inr hn

theorem addLoop_falkor_writes (sim : SimOracle) (embed : Json → List Rat)
    (filters : Params) (items : List AddArgs) (fs : FalkorState) (u : String)
    (hu : lookupStr filters "user_id" = some u) :
    (∀ v, v ≠ u →
      graphOf (addLoop cfgF (falkorClient sim) embed filters items fs).1 v =
        graphOf fs v) ∧
    (∀ nd ∈ (graphOf (addLoop cfgF (falkorClient sim) embed filters items fs).1
        u).nodes, nodePreserved (graphOf fs u) nd ∨ normNode nd) ∧
    (∀ e ∈ (graphOf (addLoop cfgF (falkorClient sim) embed filters items fs).1
        u).edges, e ∈ (graphOf fs u).edges ∨ normStr e.typ = true) := by
  induction items generalizing fs with
  | nil =>
      exact ⟨fun v hv => rfl, fun nd hnd => Or.inl ⟨nd, hnd, rfl, rfl⟩,
             fun e he => Or.inl he⟩
  | cons a rest ih =>
      simp only [addLoop_cons_state, hu, graph_query_falkor_addTriple]
      have hcur : ∀ g1, graphOf (putGraph { fs with current := u } u g1) u = g1 :=
        fun g1 => graphOf_putGraph { fs with current := u } u g1
      have hother : ∀ g1 v, v ≠ u →
          graphOf (putGraph { fs with current := u } u g1) v = graphOf fs v :=
        fun g1 v hv => graphOf_putGraph_ne { fs with current := u } u v g1 hv
      refine ⟨?_, ?_, ?_⟩
      · intro v hv
        rw [(ih _).1 v hv, hother _ v hv]
      · intro nd hnd
        rcases (ih _).2.1 nd hnd with hp | hn
        · rw [hcur] at hp
          exact nodePreserved_trans (graphOf fs u) _ nd
            (addTripleStep_norm_nodes (graphOf fs u) a u _ _) hp
        · exact Or.inr hn
      · intro e he
        rcases (ih _).2.2 e he with hp | hn
        · rw [hcur] at hp
          rcases addTripleStep_edges (graphOf fs u) (normalizeName a.sourceType)
              (normalizeName a.destinationType) (normalizeName a.relationship)
              (normalizeName a.source) (normalizeName a.destination) u
              (embed (.str (normalizeName a.source)))
              (embed (.str (normalizeName a.destination))) e hp with h | h
          · exact Or.inl h
          · exact Or.inr (h ▸ normStr_normalizeName _)
        · exact Or.inr hn

/-- Claim C2 theorem.  Confirmed: first conjunct, for every client, every
triple in the return value of a completed add is fully normalized, no space
and no uppercase letter in source, relationship, or target.  Second and
third conjuncts, for the concrete neo4j and falkordb clients: every node
the addition loop writes either already had its name and label on a node of
the starting graph or carries a normalized name and a normalized label, and
every edge it writes is either preexisting or carries a normalized relation
type; on falkordb the loop touches only the user's own logical graph. -/
theorem c2_addition_path_is_normalized :
    (∀ {σ : Type} (cfg : Config) (cl : Client σ) (embed : Json → List Rat)
        (entityResp relResp : Json) (decisions : List Decision)
        (filters : Params) (st st' : σ) (ts : List RelTriple),
      add cfg cl embed entityResp relResp decisions filters st = (st', .ok ts) →
      ∀ tr ∈ ts, normStr tr.source = true ∧ normStr tr.relationship = true ∧
        normStr tr.target = true) ∧
    (∀ (sim : SimOracle) (embed : Json → List Rat) (filters : Params)
        (items : List AddArgs) (g : GraphState),
      (∀ nd ∈ ((addLoop cfgN (neoClient sim) embed filters items g).1).nodes,
        nodePreserved g nd ∨ normNode nd) ∧
      (∀ e ∈ ((addLoop cfgN (neoClient sim) embed filters items g).1).edges,
        e ∈ g.edges ∨ normStr e.typ = true)) ∧
    (∀ (sim : SimOracle) (embed : Json → List Rat) (filters : Params)
        (items : List AddArgs) (fs : FalkorState) (u : String),
      lookupStr filters "user_id" = some u →
      (∀ v, v ≠ u →
        graphOf (addLoop cfgF (falkorClient sim) embed filters items fs).1 v =
          graphOf fs v) ∧
      (∀ nd ∈ (graphOf (addLoop cfgF (falkorClient sim) embed filters items
          fs).1 u).nodes, nodePreserved (graphOf fs u) nd ∨ normNode nd) ∧
      (∀ e ∈ (graphOf (addLoop cfgF (falkorClient sim) embed filters items
          fs).1 u).edges,
        e ∈ (graphOf fs u).edges ∨ normStr e.typ = true)) := by
  refine ⟨?_, addLoop_neo_writes, addLoop_falkor_writes⟩
  intro σ cfg cl embed entityResp relResp decisions filters st st' ts h tr htr
  rw [add_ok_returnedOf cfg cl embed entityResp relResp decisions filters
    st st' ts h] at htr
  rw [List.mem_filterMap] at htr
  obtain ⟨d, _, hd⟩ := htr
  cases d with
  | addMem a =>
      simp only [returnedOf] at hd
      cases hd
      exact ⟨normStr_normalizeName _, normStr_normalizeName _,
             normStr_normalizeName _⟩
  | updateMem s t r => simp [returnedOf] at hd
  | noopCall => simp [returnedOf] at hd
  | otherTool nm => simp [returnedOf] at hd

/-- Claim C2 witness: an add decision with uppercase spaced names yields
normalized return triples, and the node written for the source is the
normalized alice person node. -/
theorem c2_addition_path_is_normalized_witness :
    (normStr "alice" = true ∧ normStr "works_at" = true ∧
      normStr "acme_corp" = true) ∧
    (nodePreserved emptyGraph
        ⟨0, some "person", "alice", "u1", some [], some 0⟩ ∨
      normNode ⟨0, some "person", "alice", "u1", some [], some 0⟩) := by
  constructor
  · exact c2_addition_path_is_normalized.1 cfgN (neoClient simZero) embedZero
      (Json.obj []) (Json.obj [])
      [Decision.addMem ⟨"Alice", "Person", "Works At", "Acme Corp", "Org"⟩]
      [("user_id", .vs "u1")] emptyGraph
      (add cfgN (neoClient simZero) embedZero (Json.obj []) (Json.obj [])
        [Decision.addMem ⟨"Alice", "Person", "Works At", "Acme Corp", "Org"⟩]
        [("user_id", .vs "u1")] emptyGraph).1
      [⟨"alice", "works_at", "acme_corp"⟩] rfl
      ⟨"alice", "works_at", "acme_corp"⟩ (by simp)
  · exact (c2_addition_path_is_normalized.2.1 simZero embedZero
      [("user_id", .vs "u1")]
      [⟨"Alice", "Person", "Works At", "Acme Corp", "Org"⟩] emptyGraph).1
      ⟨0, some "person", "alice", "u1", some [], some 0⟩ (by decide)

theorem length_insertByScore (score : List Value → Rat) (x : List Value)
    (l : List (List Value)) :
    (insertByScore score x l).length = l.length + 1 := by
  induction l with
  | nil => rfl
  | cons y ys ih =>
      unfold insertByScore
      by_cases hc : score y < score x
      · rw [if_pos hc]
        rfl
      · rw [if_neg hc]
        simp [ih]

theorem length_sortByScore (score : List Value → Rat) (l : List (List Value)) :
    (sortByScore score l).length = l.length := by
  induction l with
  | nil => rfl
  | cons x xs ih =>
      unfold sortByScore
      rw [length_insertByScore, ih]
      rfl

theorem length_getTopN (score : List Value → Rat) (docs : List (List Value))
    (n : Nat) : (getTopN score docs n).length ≤ n := by
  unfold getTopN
  rw [List.length_take]
  exact Nat.min_le_left _ _

theorem mapExcept_ok_length {α β : Type} (f : α → Except String β)
    (l : List α) (bs : List β) (h : mapExcept f l = .ok bs) :
    bs.length = l.length := by
  induction l generalizing bs with
  | nil =>
      simp only [mapExcept] at h
      rw [← Except.ok.injEq .. |>.mp h]
      rfl
  | cons a as ih =>
      simp only [mapExcept] at h
      cases hf : f a with
      | error e => rw [hf] at h; simp at h
      | ok b =>
          rw [hf] at h
          cases hrest : mapExcept f as with
          | error e => rw [hrest] at h; simp [Except.map] at h
          | ok bs' =>
              rw [hrest] at h
              simp only [Except.map] at h
              rw [← Except.ok.injEq .. |>.mp h]
              simp [ih bs' hrest]

/-- Claim C6 theorem.  Confirmed: first conjunct, a completed search never
returns more than five triples, however many candidate rows retrieval
produced; second conjunct, when retrieval yields no candidates, search
returns the empty list at once, identically for every scoring function, so
the reranker cannot influence or observe the call. -/
theorem c6_search_caps_results_at_five :
    (∀ {σ : Type} (cfg : Config) (cl : Client σ) (embed : Json → List Rat)
        (score : List String → List Value → Rat) (entityResp : Json)
        (query : String) (filters : Params) (limit : Int) (st st' : σ)
        (res : List ValTriple),
      search cfg cl embed score entityResp query filters limit st =
        (st', .ok res) → res.length ≤ 5) ∧
    (∀ {σ : Type} (cfg : Config) (cl : Client σ) (embed : Json → List Rat)
        (entityResp : Json) (filters : Params) (limit : Int) (st st1 : σ)
        (etm : EntityMap),
      _search cfg cl embed entityResp filters limit st = (st1, .ok ([], etm)) →
      ∀ (score : List String → List Value → Rat) (query : String),
        search cfg cl embed score entityResp query filters limit st =
          (st1, .ok [])) := by
  constructor
  · intro σ cfg cl embed score entityResp query filters limit st st' res h
    unfold search at h
    cases hs : _search cfg cl embed entityResp filters limit st with
    | mk st1 rs =>
        rw [hs] at h
        cases rs with
        | error e => simp at h
        | ok pr =>
            obtain ⟨so, etm⟩ := pr
            simp only at h
            by_cases hempty : so.isEmpty
            · rw [if_pos hempty] at h
              obtain ⟨_, hr⟩ := Prod.mk.injEq .. ▸ h
              rw [← Except.ok.injEq .. |>.mp hr]
              simp
            · rw [if_neg hempty] at h
              cases hm1 : mapExcept (fun item => do
                  let a ← vIdx item 0
                  let b ← vIdx item 2
                  let c ← vIdx item 4
                  Except.ok [a, b, c]) so with
              | error e => rw [hm1] at h; simp at h
              | ok seqs =>
                  rw [hm1] at h
                  simp only at h
                  cases hm2 : mapExcept (fun item =>
                      match item with
                      | [a, b, c] => Except.ok (⟨a, b, c⟩ : ValTriple)
                      | _ => Except.error "IndexError")
                      (getTopN (score (query.splitOn " ")) seqs 5) with
                  | error e => rw [hm2] at h; simp at h
                  | ok ts =>
                      rw [hm2] at h
                      simp only at h
                      obtain ⟨_, hr⟩ := Prod.mk.injEq .. ▸ h
                      rw [← Except.ok.injEq .. |>.mp hr]
                      rw [mapExcept_ok_length _ _ ts hm2]
                      exact length_getTopN _ seqs 5
  · intro σ cfg cl embed entityResp filters limit st st1 etm hs score query
    unfold search
    rw [hs]
    rfl

/-- Seven-candidate similarity oracle used by the claim C6 witness: each row
carries the seven columns of the similarity templates. -/
def simSeven : SimOracle := fun _ _ =>
  List.replicate 7
    [("source", .vs "a"), ("source_id", .vint 1), ("relationship", .vs "r"),
     ("relation_id", .vint 2), ("destination", .vs "b"),
     ("destination_id", .vint 3), ("similarity", .vflt 1)]

/-- Extraction response with a single entity, used by witnesses. -/
def oneEntityResp : Json :=
  Json.obj [("tool_calls", .arr [.obj [("arguments", .obj [("entities",
    .arr [.obj [("entity", .str "alice"), ("entity_type", .str "person")]])])]])]

/-- Claim C6 witness: seven retrieved candidates come back as five triples,
and a retrieval with no candidates returns the empty list. -/
theorem c6_search_caps_results_at_five_witness :
    (List.replicate 5 (⟨Value.vs "a", Value.vs "r", Value.vs "b"⟩ : ValTriple)).length ≤ 5 ∧
    search cfgN (neoClient simZero) embedZero scoreZero oneEntityResp "q"
      [("user_id", .vs "u1")] 100 emptyGraph =
      ({ emptyGraph with time := 1 }, .ok []) := by
  constructor
  · exact c6_search_caps_results_at_five.1 cfgN (neoClient simSeven) embedZero
      scoreZero oneEntityResp "q" [("user_id", .vs "u1")] 100 emptyGraph
      (search cfgN (neoClient simSeven) embedZero scoreZero oneEntityResp "q"
        [("user_id", .vs "u1")] 100 emptyGraph).1
      (List.replicate 5 ⟨Value.vs "a", Value.vs "r", Value.vs "b"⟩) rfl
  · exact c6_search_caps_results_at_five.2 cfgN (neoClient simZero) embedZero
      oneEntityResp [("user_id", .vs "u1")] 100 emptyGraph
      { emptyGraph with time := 1 } [(.str "alice", .str "person")] rfl
      scoreZero "q"

/-- Dict built by inserting a list of key-value pairs in order. -/
def buildMap (ps : List (Json × Json)) : EntityMap :=
  ps.foldl (fun m p => insertKV m p.1 p.2) []

theorem collectLoop_eq_goodPairs (items : List Json) :
    ∀ acc : EntityMap,
      collectLoop acc items =
        ((items.takeWhile itemOk).filterMap (fun item =>
          match jget item "entity", jget item "entity_type" with
          | some kv, some tv => some (kv, tv)
          | _, _ => none)).foldl (fun m p => insertKV m p.1 p.2) acc := by
  induction items with
  | nil => intro acc; rfl
  | cons item rest ih =>
      intro acc
      cases ht : jget item "entity_type" with
      | none =>
          have hok : itemOk item = false := by
            unfold itemOk
            rw [ht]
            rfl
          simp only [collectLoop, ht, List.takeWhile_cons, hok]
          rfl
      | some tv =>
          cases hk : jget item "entity" with
          | none =>
              have hok : itemOk item = false := by
                unfold itemOk
                rw [ht, hk]
                rfl
              simp only [collectLoop, ht, hk, List.takeWhile_cons, hok]
              rfl
          | some kv =>
              by_cases hh : hashableKey kv
              · have hok : itemOk item = true := by
                  unfold itemOk
                  rw [ht, hk]
                  simp [hh]
                simp only [collectLoop, ht, hk, hh, if_true, List.takeWhile_cons,
                  hok]
                rw [ih (insertKV acc kv tv)]
                simp [List.filterMap_cons, hk, ht]
              · have hok : itemOk item = false := by
                  unfold itemOk
                  rw [ht, hk]
                  simp [hh]
                have hh2 : hashableKey kv = false := by
                  simpa using hh
                simp only [collectLoop, ht, hk, hh2, Bool.false_eq_true,
                  if_false, List.takeWhile_cons, hok]
                rfl

/-- Claim C8 theorem.  Confirmed: first conjunct, for every extraction
response the recovered entity-type map is exactly the dict built from the
run of well-formed items preceding the first parse failure, possibly empty;
in particular the parse itself never raises.  Second conjunct, the internal
search depends on the response only through that recovered map, so after
any parse failure retrieval proceeds over the partial map exactly as it
would for a response carrying just those entries. -/
theorem c8_parse_failure_degrades_to_collected_entries :
    (∀ r : Json, collectEntities r = buildMap (goodRun r)) ∧
    (∀ {σ : Type} (cfg : Config) (cl : Client σ) (embed : Json → List Rat)
        (r r' : Json) (filters : Params) (limit : Int) (st : σ),
      collectEntities r = collectEntities r' →
      _search cfg cl embed r filters limit st =
        _search cfg cl embed r' filters limit st) := by
  constructor
  · intro r
    unfold collectEntities goodRun buildMap
    cases he : entityItems r with
    | none => rfl
    | some items => exact collectLoop_eq_goodPairs items []
  · intro σ cfg cl embed r r' filters limit st h
    unfold _search
    rw [h]

/-- Malformed extraction response of the claim C8 witness: the second item
lacks the entity_type field, so strict parsing fails there. -/
def malformedResp : Json :=
  Json.obj [("tool_calls", .arr [.obj [("arguments", .obj [("entities",
    .arr [.obj [("entity", .str "alice"), ("entity_type", .str "person")],
          .obj [("entity", .str "acme")],
          .obj [("entity", .str "bob"), ("entity_type", .str "person")]])])]])]

/-- Claim C8 witness: the malformed response fails strict parsing, yet its
recovered map is the single alice entry and the internal search treats it
exactly like the truncated well-formed response. -/
theorem c8_parse_failure_degrades_to_collected_entries_witness :
    strictEntities malformedResp = none ∧
    collectEntities malformedResp = buildMap (goodRun malformedResp) ∧
    collectEntities malformedResp = [(.str "alice", .str "person")] ∧
    _search cfgN (neoClient simZero) embedZero malformedResp
        [("user_id", .vs "u1")] 100 emptyGraph =
      _search cfgN (neoClient simZero) embedZero oneEntityResp
        [("user_id", .vs "u1")] 100 emptyGraph := by
  refine ⟨rfl, c8_parse_failure_degrades_to_collected_entries.1 malformedResp, rfl, ?_⟩
  exact c8_parse_failure_degrades_to_collected_entries.2 cfgN (neoClient simZero)
    embedZero malformedResp oneEntityResp [("user_id", .vs "u1")] 100 emptyGraph
    rfl

end MemoryGraph
